import Mathlib

/-!
# Verification of the pokerjkji table engine

A shallow embedding of `src/logic/table.rs` (and the parts of the data model
it uses from `src/logic/player.rs` and `src/session.rs`) of the pokerjkji
poker server, together with proofs about the claims of its specification.

Modelling conventions:
* `Uuid` values and actix recipient addresses are modelled as `Nat`.
* Chip amounts (`u32` in the source) are modelled as `Nat`; wherever the
  source subtracts, the model subtracts with `Nat` truncated subtraction and
  the relevant theorems establish that the subtrahend never exceeds the
  minuend, so no `u32` underflow occurs and the model agrees with the source.
* The concurrent environment (client writes to the two shared inboxes, the
  thread-rng, the shuffled deck order, wall-clock time) is modelled as a
  deterministic oracle `Env` consulted at the program points where the
  source acquires a lock or calls the rng; a `tick` counter in `World`
  advances at each consultation.
* Outbound `do_send` calls append `(address, message)` pairs to an event
  log; a full or absent recipient in the source is ignored, matching the
  model where a config without an address delivers nothing.
* `game_hand.rs`, `card.rs`, `deck.rs`, `messages.rs` and `hub.rs` are not
  part of the provided sources; the definitions taken from them are marked
  `Modelled from the spec:` and follow the specification text (the enums are
  additionally pinned by their uses inside `table.rs`).
* Unbounded source loops (the street loop of `play_street`, the polling loop
  of `get_and_validate_action`, the hand loop of `play`) take explicit fuel.
-/

namespace Poker

/-- Modelled from the spec: card suits (`card.rs` is not in the sources). -/
inductive Suit where
  | club | diamond | heart | spade
deriving DecidableEq, Repr

/-- Modelled from the spec: a playing card, `(rank, suit)`; the rank is a
`Nat` since hand evaluation is abstracted by a rank oracle. -/
structure Card where
  rank : Nat
  suit : Suit
deriving DecidableEq, Repr

/-- Modelled from the spec: the betting streets (`game_hand.rs` is not in
the sources; the variants are pinned by their uses in `table.rs`). -/
inductive Street where
  | Preflop | Flop | Turn | River | ShowDown
deriving DecidableEq, Repr

/-- Numeric index of a street, used to order streets. -/
def Street.idx : Street → Nat
  | .Preflop => 0
  | .Flop => 1
  | .Turn => 2
  | .River => 3
  | .ShowDown => 4

/-- `PlayerAction` from `player.rs`, including the `SitOut` variant used
throughout `table.rs`.  Amounts are `u32` in the current source. -/
inductive PlayerAction where
  | PostSmallBlind (amount : Nat)
  | PostBigBlind (amount : Nat)
  | Fold
  | Check
  | Bet (amount : Nat)
  | Call
  | SitOut
deriving DecidableEq, Repr

/-- `Player` from `player.rs`, with the fields used by `table.rs`
(`money : u32`, `last_action`). -/
structure Player where
  id : Nat
  hole_cards : List Card
  is_active : Bool
  is_sitting_out : Bool
  money : Nat
  human_controlled : Bool
  last_action : Option PlayerAction
deriving DecidableEq, Repr

/-- `Player::new`: a fresh player with the table buy-in. -/
def Player.new (id : Nat) (human_controlled : Bool) (buy_in : Nat) : Player :=
  { id := id
  , hole_cards := []
  , is_active := true
  , is_sitting_out := false
  , money := buy_in
  , human_controlled := human_controlled
  , last_action := none }

/-- `Player::is_all_in`: still in the hand but with no chips left. -/
def Player.is_all_in (p : Player) : Bool :=
  p.is_active && p.money == 0

/-- `Player::deactivate`. -/
def Player.deactivate (p : Player) : Player :=
  { p with is_active := false }

/-- `PlayerConfig` from `player.rs`; the recipient address is an abstract
`Option Nat`, and `heart_beat` is a logical timestamp (the `World` tick). -/
structure PlayerConfig where
  id : Nat
  name : Option String
  player_addr : Option Nat
  heart_beat : Nat
deriving DecidableEq, Repr

/-- `AdminCommand` from `messages.rs`, pinned by its uses in `table.rs` and
`session.rs`. -/
inductive AdminCommand where
  | SmallBlind (v : Nat)
  | BigBlind (v : Nat)
  | BuyIn (v : Nat)
  | SetPassword (s : String)
  | ShowPassword
  | AddBot
  | RemoveBot
  | Restart
deriving DecidableEq, Repr

/-- `JoinTableError` from `messages.rs`, pinned by `table.rs` and the spec. -/
inductive JoinTableError where
  | GameIsFull
  | InvalidPassword
  | MissingPassword
deriving DecidableEq, Repr

/-- `MetaAction` from `messages.rs`, pinned by its uses in `table.rs` and
`session.rs`. -/
inductive MetaAction where
  | Chat (id : Nat) (text : String)
  | Join (config : PlayerConfig) (password : Option String)
  | Leave (id : Nat)
  | SetPlayerName (id : Nat) (name : String)
  | SendPlayerName (id : Nat)
  | UpdateAddress (id : Nat) (addr : Option Nat)
  | TableInfo (addr : Nat)
  | ImBack (id : Nat)
  | SitOut (id : Nat)
  | Admin (id : Nat) (cmd : AdminCommand)
deriving DecidableEq, Repr

/-- `ReturnedReason` from `messages.rs`, pinned by its uses in `table.rs`. -/
inductive ReturnedReason where
  | Left
  | HeartBeatFailed
  | FailureToJoin (e : JoinTableError)
deriving DecidableEq, Repr

/-- Messages a table sends to the hub (`Returned` and `GameOver`). -/
inductive HubMsg where
  | Returned (config : PlayerConfig) (reason : ReturnedReason)
  | GameOver (table_name : String)
deriving DecidableEq, Repr

/-- Modelled from the spec: a pot settlement produced by `divvy_pots`
(`game_hand.rs` is not in the sources): seat, player name, amount won and a
description of the winning hand (here the abstract rank). -/
structure Settlement where
  seat : Nat
  player_name : Option String
  amount : Nat
  hand_description : Nat
deriving DecidableEq, Repr

/-- The per-seat entry of the `players` array inside a `game_state` message,
mirroring the json fields built by `get_game_state_json`. -/
structure PlayerInfo where
  index : Nat
  player_name : String
  money : Nat
  is_active : Bool
  is_sitting_out : Option Bool
  is_all_in : Option Bool
  last_action : Option PlayerAction
  preflop_cont : Option Nat
  flop_cont : Option Nat
  turn_cont : Option Nat
  river_cont : Option Nat
deriving DecidableEq, Repr

/-- The `game_state` message assembled by `get_game_state_json`, with the
per-recipient personalisation fields (`your_index`, `hole_cards`). -/
structure GameStateMsg where
  name : String
  max_players : Nat
  small_blind : Nat
  big_blind : Nat
  buy_in : Nat
  password : Option String
  button_idx : Nat
  hand_num : Nat
  game_suspended : Bool
  players : List (Option PlayerInfo)
  street : Option Street
  current_bet : Option Nat
  flop : Option (List Card)
  turn : Option Card
  river : Option Card
  pots : Option (List Nat)
  index_to_act : Option Nat
  your_index : Option Nat
  hole_cards : Option (List Card)
deriving DecidableEq, Repr

/-- The outbound client messages of `table.rs`, tagged by `msg_type`. -/
inductive Msg where
  | game_state (gs : GameStateMsg)
  | new_hand (hand_num : Nat) (button_index : Nat)
  | chat (player_name : Option String) (text : String)
  | player_left (name : Option String)
  | table_info (table_name : String) (small_blind big_blind buy_in max_players num_humans num_bots : Nat)
  | admin_success (updated : Option String) (text : String)
  | errorEvent (error : String) (reason : String)
  | prompt (text : String) (current_bet : Nat)
  | finish_hand (settlements : List Settlement)
  | player_name (name : Option String)
deriving DecidableEq, Repr

/-- Modelled from the spec: `GameHand` from `game_hand.rs` (absent from the
sources): street, community cards, current street bet, seat owed an action,
and per-street per-seat contributions (a map from street to a 9-entry
array), plus the internal all-in counter mentioned by the spec for
`contribute`. -/
structure GameHand where
  street : Street
  flop : Option (List Card)
  turn : Option Card
  river : Option Card
  current_bet : Nat
  index_to_act : Option Nat
  street_contributions : List (Street × List Nat)
  num_all_in_marker : Nat
deriving DecidableEq, Repr

/-- `GameHand::default()`: a fresh preflop hand with no contributions. -/
def GameHand.default : GameHand :=
  { street := .Preflop
  , flop := none
  , turn := none
  , river := none
  , current_bet := 0
  , index_to_act := none
  , street_contributions := []
  , num_all_in_marker := 0 }

/-- Insert/replace the contribution array of a street (the `HashMap::insert`
of `street_contributions.insert(street, [0;9])`). -/
def GameHand.insertStreet (gh : GameHand) (s : Street) (arr : List Nat) : GameHand :=
  { gh with street_contributions :=
      (s, arr) :: gh.street_contributions.filter (fun e => e.1 ≠ s) }

/-- The contribution array of a street (`street_contributions.get(&street)`),
defaulting to nine zeros where the source would `unwrap` a present key. -/
def GameHand.contributionsFor (gh : GameHand) (s : Street) : List Nat :=
  ((gh.street_contributions.find? (fun e => e.1 == s)).map Prod.snd).getD
    (List.replicate 9 0)

/-- Modelled from the spec: `GameHand::contribute(seat, amount, all_in)`
records `amount` into `street_contributions[current_street][seat]` and bumps
the internal all-in marker when the flag is set. -/
def GameHand.contribute (gh : GameHand) (seat : Nat) (amount : Nat) (all_in : Bool) : GameHand :=
  let arr := gh.contributionsFor gh.street
  let arr := arr.set seat (arr.getD seat 0 + amount)
  let gh := gh.insertStreet gh.street arr
  { gh with num_all_in_marker := gh.num_all_in_marker + (if all_in then 1 else 0) }

/-- The total chips seat `s` committed during the whole hand: the collapse of
`street_contributions` across streets. -/
def GameHand.totalAt (gh : GameHand) (s : Nat) : Nat :=
  (gh.street_contributions.map (fun e => e.2.getD s 0)).sum

/-- Modelled from the spec: `pot_repr`, the pot representation shown in the
game state; here the total chips committed so far. -/
def GameHand.pot_repr (gh : GameHand) : List Nat :=
  [((List.range 9).map gh.totalAt).sum]

/-- `Table` from `table.rs`.  The hub address is reduced to its presence and
the deck to the list of not-yet-drawn cards. -/
structure Table where
  hub_addr : Bool
  name : String
  deck : List Card
  players : List (Option Player)
  player_ids_to_configs : List (Nat × PlayerConfig)
  max_players : Nat
  small_blind : Nat
  big_blind : Nat
  buy_in : Nat
  password : Option String
  admin_id : Nat
  button_idx : Nat
  hand_num : Nat
deriving DecidableEq, Repr

/-- `Table::default()` (players start empty, blinds 4/8, buy-in 1000). -/
def Table.default : Table :=
  { hub_addr := false
  , name := "Table"
  , deck := []
  , players := List.replicate 9 none
  , player_ids_to_configs := []
  , max_players := 9
  , small_blind := 4
  , big_blind := 8
  , buy_in := 1000
  , password := none
  , admin_id := 0
  , button_idx := 0
  , hand_num := 1 }

/-- The seat at index `i` (the source indexes a fixed `[Option<Player>; 9]`). -/
def Table.seat (t : Table) (i : Nat) : Option Player :=
  (t.players.getD i none)

/-- Apply a mutation to every seated player (the source's
`for player in players.iter_mut().flatten()`). -/
def Table.updateSeats (t : Table) (f : Player → Player) : Table :=
  { t with players := t.players.map (fun sp => Option.map f sp) }

/-- Replace the seat at index `i`. -/
def Table.setSeat (t : Table) (i : Nat) (p : Option Player) : Table :=
  { t with players := t.players.set i p }

/-- Association-map lookup for the config map (`player_ids_to_configs.get`). -/
def configLookup (configs : List (Nat × PlayerConfig)) (id : Nat) : Option PlayerConfig :=
  ((configs.find? (fun e => e.1 == id)).map Prod.snd)

/-- Association-map insert (`HashMap::insert` replaces any existing entry). -/
def configInsert (configs : List (Nat × PlayerConfig)) (id : Nat) (c : PlayerConfig) :
    List (Nat × PlayerConfig) :=
  (id, c) :: configs.filter (fun e => e.1 ≠ id)

/-- Association-map removal (`HashMap::remove`). -/
def configRemove (configs : List (Nat × PlayerConfig)) (id : Nat) :
    List (Nat × PlayerConfig) :=
  configs.filter (fun e => e.1 ≠ id)

/-- `PlayerConfig::send_specific_message`: deliver to the one config with
this id, when it exists and has an address. -/
def send_specific_message (msg : Msg) (id : Nat) (configs : List (Nat × PlayerConfig)) :
    List (Nat × Msg) :=
  match configLookup configs id with
  | some c =>
    match c.player_addr with
    | some a => [(a, msg)]
    | none => []
  | none => []

/-- `PlayerConfig::send_group_message`: deliver to every config that has an
address. -/
def send_group_message (msg : Msg) (configs : List (Nat × PlayerConfig)) :
    List (Nat × Msg) :=
  configs.filterMap (fun e => (e.2.player_addr).map (fun a => (a, msg)))

/-- The deterministic oracle for everything the driver observes from outside:
meta-action arrivals and player-action mailbox writes (observed at each lock
acquisition), the thread rng, the shuffled deck order, the hand-rank
evaluator, fresh uuids, and the heart-beat timeout constant (`PLAYER_TIMEOUT`
lives in a source file that is not provided). -/
structure Env where
  metaAt : Nat → List MetaAction
  mailAt : Nat → List (Nat × PlayerAction)
  rngAt : Nat → Nat
  shuffleAt : Nat → List Card
  rankAt : Nat → Nat → Nat
  uuidAt : Nat → Nat
  player_timeout : Nat

/-- The driver's world: the table, the two shared inboxes, the log of
delivered client events, the log of hub messages, the oracle tick (also the
logical clock stamped into heart-beats), and a flag recording that a source
`panic!`/`expect`/`unwrap` would have fired. -/
structure World where
  table : Table
  meta_queue : List MetaAction
  mailbox : List (Nat × PlayerAction)
  events : List (Nat × Msg)
  hub_msgs : List HubMsg
  tick : Nat
  fatal : Bool
deriving DecidableEq, Repr

/-- Acquiring the meta-action lock: the arrivals of the current tick are
appended to the queue. -/
def World.absorbMeta (env : Env) (w : World) : World :=
  { w with meta_queue := w.meta_queue ++ env.metaAt w.tick, tick := w.tick + 1 }

/-- A write to the player-action mailbox: later writes overwrite earlier
ones for the same id. -/
def mailInsert (mailbox : List (Nat × PlayerAction)) (id : Nat) (a : PlayerAction) :
    List (Nat × PlayerAction) :=
  (id, a) :: mailbox.filter (fun e => e.1 ≠ id)

/-- Acquiring the player-action lock: the writes of the current tick land in
the mailbox. -/
def World.absorbMail (env : Env) (w : World) : World :=
  { w with
    mailbox := (env.mailAt w.tick).foldl (fun mb e => mailInsert mb e.1 e.2) w.mailbox
  , tick := w.tick + 1 }

/-- Append delivered client events. -/
def World.send (w : World) (evs : List (Nat × Msg)) : World :=
  { w with events := w.events ++ evs }

/-- Send a message to the hub, when the table has a hub address. -/
def World.sendHub (w : World) (h : HubMsg) : World :=
  if w.table.hub_addr then { w with hub_msgs := w.hub_msgs ++ [h] } else w

/-- The per-seat player info of `get_game_state_json` for one seated player
whose config is present. -/
def playerInfoAt (gh? : Option GameHand) (i : Nat) (p : Player) (cfg : PlayerConfig) :
    PlayerInfo :=
  { index := i
  , player_name := cfg.name.getD ""
  , money := p.money
  , is_active := p.is_active
  , is_sitting_out := if p.is_sitting_out then some true else none
  , is_all_in := if p.is_all_in then some true else none
  , last_action := p.last_action
  , preflop_cont := gh?.bind (fun gh =>
      ((gh.street_contributions.find? (fun e => e.1 == Street.Preflop)).map
        (fun e => e.2.getD i 0)))
  , flop_cont := gh?.bind (fun gh =>
      ((gh.street_contributions.find? (fun e => e.1 == Street.Flop)).map
        (fun e => e.2.getD i 0)))
  , turn_cont := gh?.bind (fun gh =>
      ((gh.street_contributions.find? (fun e => e.1 == Street.Turn)).map
        (fun e => e.2.getD i 0)))
  , river_cont := gh?.bind (fun gh =>
      ((gh.street_contributions.find? (fun e => e.1 == Street.River)).map
        (fun e => e.2.getD i 0))) }

/-- `get_game_state_json`: the shared part of the game-state message;
`your_index` and `hole_cards` are personalised later by `send_game_state`.
A seated player whose config has vanished is skipped (the source's
`continue`); an empty seat contributes `none`. -/
def Table.get_game_state_json (t : Table) (gh? : Option GameHand) (game_suspended : Bool) :
    GameStateMsg :=
  { name := t.name
  , max_players := t.max_players
  , small_blind := t.small_blind
  , big_blind := t.big_blind
  , buy_in := t.buy_in
  , password := t.password
  , button_idx := t.button_idx
  , hand_num := t.hand_num
  , game_suspended := game_suspended
  , players := (List.range 9).foldr (fun i acc =>
      match t.seat i with
      | some p =>
        match configLookup t.player_ids_to_configs p.id with
        | some cfg => some (playerInfoAt gh? i p cfg) :: acc
        | none => acc
      | none => none :: acc) []
  , street := gh?.map (fun gh => gh.street)
  , current_bet := gh?.map (fun gh => gh.current_bet)
  , flop := gh?.bind (fun gh => gh.flop)
  , turn := gh?.bind (fun gh => gh.turn)
  , river := gh?.bind (fun gh => gh.river)
  , pots := gh?.map (fun gh => gh.pot_repr)
  , index_to_act := gh?.bind (fun gh => gh.index_to_act)
  , your_index := none
  , hole_cards := none }

/-- The deliveries of `send_game_state` for one seat: the shared message
personalised with the seat index and the seat's own hole cards (when it
holds two), delivered through the seated player's config. -/
def seatStateMsgs (t : Table) (base : GameStateMsg) (i : Nat) : List (Nat × Msg) :=
  match t.seat i with
  | some p =>
    send_specific_message
      (.game_state { base with
        your_index := some i
      , hole_cards := if p.hole_cards.length == 2 then some p.hole_cards else none })
      p.id t.player_ids_to_configs
  | none => []

/-- `send_game_state`: personalise the shared message for every seated
player (their seat index, their own hole cards when they hold two) and
deliver it to them through their config. -/
def Table.send_game_state (t : Table) (gh? : Option GameHand) (game_suspended : Bool) :
    List (Nat × Msg) :=
  let base := t.get_game_state_json gh? game_suspended
  (List.range 9).foldl (fun acc i => acc ++ seatStateMsgs t base i) []

/-- `add_player`: an already-seated id only re-inserts its config and
returns its seat; otherwise the table must not be full, and the player takes
the first empty seat. -/
def Table.add_player (t : Table) (cfg : PlayerConfig) (p : Player) :
    Table × Except JoinTableError Nat :=
  match (List.range 9).find? (fun i =>
      match t.seat i with
      | some existing => existing.id == p.id
      | none => false) with
  | some i =>
    ({ t with player_ids_to_configs := configInsert t.player_ids_to_configs cfg.id cfg },
     .ok i)
  | none =>
    if t.max_players ≤ (t.players.filterMap id).length then
      (t, .error .GameIsFull)
    else
      match (List.range 9).find? (fun i => (t.seat i).isNone) with
      | some i =>
        ({ (t.setSeat i (some p)) with
           player_ids_to_configs := configInsert t.player_ids_to_configs cfg.id cfg },
         .ok i)
      | none => (t, .error .GameIsFull)

/-- `add_human`: password gate, then seat a fresh human player with the
table buy-in. -/
def Table.add_human (t : Table) (cfg : PlayerConfig) (password : Option String) :
    Table × Except JoinTableError Nat :=
  match t.password, password with
  | some game_password, some given_password =>
    if game_password ≠ given_password then
      (t, .error .InvalidPassword)
    else
      t.add_player cfg (Player.new cfg.id true t.buy_in)
  | some _, none => (t, .error .MissingPassword)
  | none, _ => t.add_player cfg (Player.new cfg.id true t.buy_in)

/-- `add_bot`: a bot with a fresh id and no recipient address. -/
def Table.add_bot (t : Table) (name : String) (botId hb : Nat) :
    Table × Except JoinTableError Nat :=
  let new_bot := Player.new botId false t.buy_in
  t.add_player { id := botId, name := some name, player_addr := none, heart_beat := hb } new_bot

/-- Modelled from the spec: `PlayerConfig::has_active_heart_beat` (the newer
`player.rs` is not in the sources): the config is live while its silence does
not exceed `PLAYER_TIMEOUT`. -/
def PlayerConfig.has_active_heart_beat (c : PlayerConfig) (now timeout : Nat) : Bool :=
  now - c.heart_beat ≤ timeout

/-- `handle_player_heart_beats`: report each silent config to the hub, then
drop them from the config map. -/
def handle_player_heart_beats (env : Env) (w : World) : World :=
  let live := fun (e : Nat × PlayerConfig) =>
    e.2.has_active_heart_beat w.tick env.player_timeout
  let dead := w.table.player_ids_to_configs.filter (fun e => !(live e))
  let w := dead.foldl (fun w e => w.sendHub (.Returned e.2 .HeartBeatFailed)) w
  { w with table := { w.table with
      player_ids_to_configs := w.table.player_ids_to_configs.filter live } }

/-- `find_next_button`: scan seats circularly from `button_idx + 1`,
returning the first seated player who is neither sitting out nor broke. -/
def Table.find_next_button (t : Table) : Option Nat :=
  (List.range' (t.button_idx + 1) (9 - (t.button_idx + 1)) ++
    List.range (t.button_idx + 1)).find? (fun i =>
      match t.seat i with
      | some p => !p.is_sitting_out && p.money != 0
      | none => false)

/-- `get_starting_idx`: the seat after the button, with wrap-around. -/
def Table.get_starting_idx (t : Table) : Nat :=
  if 9 ≤ t.button_idx + 1 then 0 else t.button_idx + 1

/-- `handle_admin_command`: authorisation gate (`not_admin`, then
`not_private`), then the command effect, then a reply to the requester. -/
def handle_admin_command (env : Env) (w : World) (id : Nat) (cmd : AdminCommand) : World :=
  if w.table.admin_id ≠ id then
    w.send (send_specific_message
      (.errorEvent "not_admin" "You cannot update a table that you are not the admin for.")
      id w.table.player_ids_to_configs)
  else if w.table.password = none then
    w.send (send_specific_message
      (.errorEvent "not_private" "You cannot update a table that is not private.")
      id w.table.player_ids_to_configs)
  else
    let (w, msg) :=
      match cmd with
      | .SmallBlind v =>
        ({ w with table := { w.table with small_blind := v } },
         Msg.admin_success (some "small_blind") s!"The small blind has been changed to {v}")
      | .BigBlind v =>
        ({ w with table := { w.table with big_blind := v } },
         Msg.admin_success (some "big_blind") s!"The big blind has been changed to {v}")
      | .BuyIn v =>
        ({ w with table := { w.table with buy_in := v } },
         Msg.admin_success (some "buy_in") s!"The buy in has been changed to {v}")
      | .SetPassword s =>
        ({ w with table := { w.table with password := some s } },
         Msg.admin_success (some "password") s!"The password has been changed to {s}")
      | .ShowPassword =>
        (w, Msg.admin_success none
          (match w.table.password with
           | some p => s!"The password is {p}"
           | none => "The table has no password"))
      | .AddBot =>
        let botId := env.uuidAt w.tick
        let w := { w with tick := w.tick + 1 }
        let (t2, res) := w.table.add_bot "Bot" botId w.tick
        match res with
        | .ok _ => ({ w with table := t2 },
            Msg.admin_success (some "bot_added") "A bot has been added.")
        | .error _ => ({ w with table := t2 },
            Msg.errorEvent "unable_to_add_bot" "the game is full")
      | .RemoveBot =>
        match (List.range 9).find? (fun i =>
            match w.table.seat i with
            | some p => !p.human_controlled
            | none => false) with
        | some i =>
          let botId := ((w.table.seat i).map Player.id).getD 0
          let w := if (configLookup w.table.player_ids_to_configs botId).isNone then
              { w with fatal := true } else w
          ({ w with table :=
              { (w.table.setSeat i none) with
                player_ids_to_configs := configRemove w.table.player_ids_to_configs botId } },
           Msg.admin_success (some "bot_removed") "A bot has been removed.")
        | none =>
          (w, Msg.errorEvent "unable_to_remove_bot" "Unable to remove a bot from the table.")
      | .Restart =>
        ({ w with table :=
            w.table.updateSeats (fun p => { p with money := w.table.buy_in }) },
         Msg.admin_success (some "game_restarted")
           "The game has been restarted to its original state.")
    w.send (send_specific_message msg id w.table.player_ids_to_configs)

/-- One arm of the `handle_meta_actions` match. -/
def handleOneMeta (env : Env) (between_hands : Bool) (gh? : Option GameHand)
    (w : World) (m : MetaAction) : World :=
  match m with
  | .Chat id text =>
    match configLookup w.table.player_ids_to_configs id with
    | some cfg =>
      let configs := configInsert w.table.player_ids_to_configs id
        { cfg with heart_beat := w.tick }
      let w := { w with table := { w.table with player_ids_to_configs := configs } }
      w.send (send_group_message (.chat cfg.name text) configs)
    | none => w
  | .Join cfg password =>
    let (t2, res) := w.table.add_human cfg password
    let w := { w with table := t2 }
    match res with
    | .ok _ => w.send (t2.send_game_state gh? false)
    | .error err => w.sendHub (.Returned cfg (.FailureToJoin err))
  | .Leave id =>
    match configLookup w.table.player_ids_to_configs id with
    | some cfg =>
      let configs := configRemove w.table.player_ids_to_configs id
      let w := { w with table := { w.table with player_ids_to_configs := configs } }
      let w := w.send (send_specific_message (.player_left cfg.name) id configs)
      w.sendHub (.Returned cfg .Left)
    | none => w
  | .SetPlayerName id new_name =>
    match configLookup w.table.player_ids_to_configs id with
    | some cfg =>
      let cfg := { cfg with name := some new_name }
      let configs := configInsert w.table.player_ids_to_configs id cfg
      let w := { w with table := { w.table with player_ids_to_configs := configs } }
      w.send (match cfg.player_addr with
        | some a => [(a, Msg.player_name cfg.name)]
        | none => [])
    | none => w
  | .SendPlayerName id =>
    match configLookup w.table.player_ids_to_configs id with
    | some cfg =>
      w.send (match cfg.player_addr with
        | some a => [(a, Msg.player_name cfg.name)]
        | none => [])
    | none => w
  | .UpdateAddress id new_addr =>
    let configs := match configLookup w.table.player_ids_to_configs id with
      | some cfg => configInsert w.table.player_ids_to_configs id
          { cfg with player_addr := new_addr }
      | none => w.table.player_ids_to_configs
    let w := { w with table := { w.table with player_ids_to_configs := configs } }
    w.send (w.table.send_game_state gh? false)
  | .TableInfo addr =>
    w.send [(addr, Msg.table_info w.table.name w.table.small_blind w.table.big_blind
      w.table.buy_in w.table.max_players
      ((w.table.players.filterMap id).filter (fun p => p.human_controlled)).length
      ((w.table.players.filterMap id).filter (fun p => !p.human_controlled)).length)]
  | .ImBack id =>
    let t := w.table.updateSeats (fun p =>
      if p.id == id then { p with is_sitting_out := false } else p)
    let t := match configLookup t.player_ids_to_configs id with
      | some cfg =>
        { t with player_ids_to_configs :=
            configInsert t.player_ids_to_configs id { cfg with heart_beat := w.tick } }
      | none => t
    let w := { w with table := t }
    w.send (t.send_game_state gh? false)
  | .SitOut id =>
    let t := w.table.updateSeats (fun p =>
      if p.id == id then { p with is_sitting_out := true } else p)
    let w := { w with table := t }
    w.send (t.send_game_state gh? false)
  | .Admin id cmd =>
    if !between_hands then
      { w with meta_queue := w.meta_queue ++ [.Admin id cmd] }
    else
      handle_admin_command env w id cmd

/-- Drain `n` meta actions from the front of the queue (the source snapshots
`len()` up front, so items appended during handling are deferred). -/
def hmaDrain (env : Env) (between_hands : Bool) (gh? : Option GameHand) :
    Nat → World → World
  | 0, w => w
  | n + 1, w =>
    match w.meta_queue with
    | [] => w
    | m :: rest =>
      hmaDrain env between_hands gh? n
        (handleOneMeta env between_hands gh? { w with meta_queue := rest } m)

/-- `handle_meta_actions`: take the lock (absorbing concurrent arrivals) and
drain the current snapshot of the queue. -/
def handle_meta_actions (env : Env) (between_hands : Bool) (gh? : Option GameHand)
    (w : World) : World :=
  let w := World.absorbMeta env w
  hmaDrain env between_hands gh? w.meta_queue.length w

/-- Is the seat occupied by a still-active player? -/
def seatActive (players : List (Option Player)) (s : Nat) : Bool :=
  match players.getD s none with
  | some p => p.is_active
  | none => false

/-- The seats in hand order starting from `starting_idx`. -/
def handOrder (starting_idx : Nat) : List Nat :=
  (List.range 9).map (fun k => (starting_idx + k) % 9)

/-- The chips a pot bounded by contribution levels `lo < … ≤ hi` collects:
from every seat, its total clipped to `hi`, minus what lower pots took. -/
def potAmount (totals : Nat → Nat) (lo hi : Nat) : Nat :=
  ((List.range 9).map (fun s => min (totals s) hi - min (totals s) lo)).sum

/-- The seats eligible to win a pot with boundary `level`: still active and
having contributed at least `level`. -/
def eligibleSeats (players : List (Option Player)) (totals : Nat → Nat) (level : Nat) :
    List Nat :=
  (List.range 9).filter (fun s => seatActive players s && decide (level ≤ totals s))

/-- The best evaluator rank among a set of seats. -/
def bestRank (rankOf : Nat → Nat) (seats : List Nat) : Nat :=
  (seats.map rankOf).foldr max 0

/-- Credit `amount` chips to the player seated at `s` (no-op on an empty
seat; winners always hold a seat). -/
def seatPay (players : List (Option Player)) (s : Nat) (amount : Nat) :
    List (Option Player) :=
  players.set s ((players.getD s none).map (fun p => { p with money := p.money + amount }))

/-- The name shown in a settlement: the config name of the player seated at
`s`. -/
def seatName (players : List (Option Player)) (configs : List (Nat × PlayerConfig))
    (s : Nat) : Option String :=
  (players.getD s none).bind (fun p => (configLookup configs p.id).bind (fun c => c.name))

/-- Pay one pot of `amount` chips to `ordered` (the winning seats in hand
order): each gets `amount / n`, and the first `amount % n` of them get one
extra chip. -/
def payPot (configs : List (Nat × PlayerConfig)) (rankOf : Nat → Nat)
    (players : List (Option Player)) (ordered : List Nat) (amount : Nat) :
    List (Option Player) × List Settlement :=
  let n := ordered.length
  let share := fun (k : Nat) => amount / n + (if k < amount % n then 1 else 0)
  (ordered.enum.foldl (fun ps e => seatPay ps e.2 (share e.1)) players,
   ordered.enum.map (fun e =>
     { seat := e.2
     , player_name := seatName players configs e.2
     , amount := share e.1
     , hand_description := rankOf e.2 }))

/-- Modelled from the spec: the pot-by-pot loop of `divvy_pots`
(`game_hand.rs` is not in the sources).  `levels` are the remaining distinct
active contribution levels in ascending order and `lo` is the boundary of
the pots already awarded. -/
def divvyGo (configs : List (Nat × PlayerConfig)) (rankOf : Nat → Nat)
    (starting_idx : Nat) (totals : Nat → Nat) :
    List Nat → Nat → List (Option Player) → List (Option Player) × List Settlement
  | [], _, players => (players, [])
  | level :: rest, lo, players =>
    let amount := potAmount totals lo level
    let elig := eligibleSeats players totals level
    let winners := elig.filter (fun s => rankOf s == bestRank rankOf elig)
    let ordered := (handOrder starting_idx).filter (fun s => winners.contains s)
    let (players, settles) := payPot configs rankOf players ordered amount
    let (players, settlesRest) := divvyGo configs rankOf starting_idx totals rest level players
    (players, settles ++ settlesRest)

/-- Modelled from the spec: `GameHand::divvy_pots(seats, configs,
starting_idx)` — collapse the street contributions into per-seat totals,
partition by the distinct non-zero contribution levels of the still-active
seats in ascending order, and award each pot to the best-ranked eligible
seats, splitting ties with deterministic remainder distribution.  Winners
are paid directly into the seat array, exactly like the `&mut self.players`
of the source call site. -/
def GameHand.divvy_pots (gh : GameHand) (players : List (Option Player))
    (configs : List (Nat × PlayerConfig)) (starting_idx : Nat) (rankOf : Nat → Nat) :
    List (Option Player) × List Settlement :=
  let totals := gh.totalAt
  let levels := (((List.range 9).filter
      (fun s => seatActive players s && totals s != 0)).map totals).dedup.insertionSort (· ≤ ·)
  divvyGo configs rankOf starting_idx totals levels 0 players

/-- `finish_hand`: nothing to do on an empty table; otherwise settle the
pots, broadcast the settlements, pause, and collect the hole cards. -/
def finish_hand (env : Env) (w : World) (gh : GameHand) : World :=
  if w.table.player_ids_to_configs.isEmpty then w
  else
    let starting_idx := w.table.get_starting_idx
    let rankOf := env.rankAt w.tick
    let w := { w with tick := w.tick + 1 }
    let (players2, settlements) :=
      gh.divvy_pots w.table.players w.table.player_ids_to_configs starting_idx rankOf
    let w := { w with table := { w.table with players := players2 } }
    let w := w.send (send_group_message (.finish_hand settlements) w.table.player_ids_to_configs)
    { w with table := w.table.updateSeats (fun p => { p with hole_cards := [] }) }

/-- `Deck::draw_card`, on the not-yet-drawn suffix of the deck. -/
def Table.draw_card (t : Table) : Option Card × Table :=
  match t.deck with
  | [] => (none, t)
  | c :: rest => (some c, { t with deck := rest })

/-- `deal_hands` for one seat: two cards to an active player; an exhausted
deck is the source's `panic!`. -/
def dealTwo (w : World) (i : Nat) : World :=
  match w.table.seat i with
  | some p =>
    if p.is_active then
      match w.table.deck with
      | c1 :: c2 :: rest =>
        { w with table :=
            { (w.table.setSeat i (some { p with hole_cards := p.hole_cards ++ [c1, c2] })) with
              deck := rest } }
      | _ => { w with fatal := true }
    else w
  | none => w

/-- `deal_hands`: two hole cards to every active player. -/
def deal_hands (w : World) : World :=
  (List.range 9).foldl dealTwo w

/-- `deal_flop`: three cards; an exhausted deck is the source's `panic!`. -/
def deal_flop (w : World) (gh : GameHand) : World × GameHand :=
  match w.table.deck with
  | c1 :: c2 :: c3 :: rest =>
    ({ w with table := { w.table with deck := rest } }, { gh with flop := some [c1, c2, c3] })
  | _ => ({ w with fatal := true }, gh)

/-- `deal_turn`. -/
def deal_turn (w : World) (gh : GameHand) : World × GameHand :=
  let (c, t) := w.table.draw_card
  ({ w with table := t }, { gh with turn := c })

/-- `deal_river`. -/
def deal_river (w : World) (gh : GameHand) : World × GameHand :=
  let (c, t) := w.table.draw_card
  ({ w with table := t }, { gh with river := c })

/-- `transition`: reset the street bet, advance the street, deal the
community cards, and broadcast the state. -/
def transition (w : World) (gh : GameHand) : World × GameHand :=
  let gh := { gh with current_bet := 0, index_to_act := none }
  let (w, gh) :=
    match gh.street with
    | .Preflop => deal_flop w { gh with street := .Flop }
    | .Flop => deal_turn w { gh with street := .Turn }
    | .Turn => deal_river w { gh with street := .River }
    | .River => (w, { gh with street := .ShowDown })
    | .ShowDown => (w, gh)
  (w.send (w.table.send_game_state (some gh) false), gh)

/-- `get_action_from_player`: humans are read (and erased) from the shared
mailbox; computer players draw from the rng distribution (fold 21%, check
35%, bet 15%, call 29%), betting `min(money, uniform(1, money/2))` and
shoving a stack of at most 100. -/
def get_action_from_player (env : Env) (w : World) (p : Player) :
    World × Option PlayerAction :=
  if p.human_controlled then
    let w := w.absorbMail env
    match w.mailbox.find? (fun e => e.1 == p.id) with
    | some e => ({ w with mailbox := w.mailbox.filter (fun x => x.1 ≠ p.id) }, some e.2)
    | none => (w, none)
  else
    let num := env.rngAt w.tick % 100
    let w := { w with tick := w.tick + 1 }
    if num ≤ 20 then (w, some .Fold)
    else if num ≤ 55 then (w, some .Check)
    else if num ≤ 70 then
      if p.money ≤ 100 then (w, some (.Bet p.money))
      else
        let r := env.rngAt w.tick
        ({ w with tick := w.tick + 1 }, some (.Bet (1 + r % (p.money / 2 - 1))))
    else (w, some .Call)

/-- The outcome of one polling loop of `get_and_validate_action`:
`actOpt = none` means the 45-attempt budget ran out.  `attempts` is the
final value of the source's `attempts` counter, `iters` the number of loop
bodies executed, and `noPending` the number of polls that found no pending
action in the mailbox. -/
structure GvaLoopOut where
  w : World
  actOpt : Option PlayerAction
  attempts : Nat
  iters : Nat
  noPending : Nat
  fuelOut : Bool
deriving Repr

/-- The polling loop of `get_and_validate_action` (`while attempts < 45 &&
action.is_none()`), with each loop body handling meta actions, counting an
attempt for humans, resolving sitting-out and vanished-config seats, and
validating a polled action against the current bet. -/
def gvaLoop (env : Env) (gh : GameHand) (index : Nat) :
    Nat → World → Nat → Nat → Nat → GvaLoopOut
  | fuel, w, attempts, iters, noPending =>
    if 45 ≤ attempts then
      { w := w, actOpt := none, attempts, iters, noPending, fuelOut := false }
    else
      match fuel with
      | 0 => { w := w, actOpt := none, attempts, iters, noPending, fuelOut := true }
      | fuel + 1 =>
        let w := handle_meta_actions env false (some gh) w
        match w.table.seat index with
        | none =>
          { w := { w with fatal := true }, actOpt := none, attempts, iters, noPending,
            fuelOut := false }
        | some p =>
          let attempts := if p.human_controlled then attempts + 1 else attempts
          let iters := iters + 1
          if p.is_sitting_out then
            { w := w, actOpt := some .SitOut, attempts, iters, noPending, fuelOut := false }
          else if (configLookup w.table.player_ids_to_configs p.id).isNone then
            { w := w, actOpt := some .Fold, attempts, iters, noPending, fuelOut := false }
          else
            let cum := (gh.contributionsFor gh.street).getD index 0
            let (w, polled) := get_action_from_player env w p
            match polled with
            | none =>
              gvaLoop env gh index fuel w attempts iters (noPending + 1)
            | some .Fold =>
              if gh.current_bet ≤ cum then
                let w := if p.human_controlled then
                    w.send (send_specific_message
                      (.errorEvent "invalid_action" "You said fold but we will let you check!")
                      p.id w.table.player_ids_to_configs)
                  else w
                { w := w, actOpt := some .Check, attempts, iters, noPending, fuelOut := false }
              else
                { w := w, actOpt := some .Fold, attempts, iters, noPending, fuelOut := false }
            | some .Check =>
              if cum < gh.current_bet then
                let w := if p.human_controlled then
                    w.send (send_specific_message
                      (.errorEvent "invalid_action" "You can't check since there is a bet!!")
                      p.id w.table.player_ids_to_configs)
                  else w
                gvaLoop env gh index fuel w attempts iters noPending
              else
                { w := w, actOpt := some .Check, attempts, iters, noPending, fuelOut := false }
            | some .Call =>
              if gh.current_bet ≤ cum then
                let w := w.send (send_specific_message
                  (.errorEvent "invalid_action" "There is nothing for you to call!")
                  p.id w.table.player_ids_to_configs)
                gvaLoop env gh index fuel w attempts iters noPending
              else
                { w := w, actOpt := some .Call, attempts, iters, noPending, fuelOut := false }
            | some (.Bet new_bet) =>
              if gh.current_bet < cum then
                gvaLoop env gh index fuel w attempts iters noPending
              else if p.money + cum < new_bet then
                let w := w.send (send_specific_message
                  (.errorEvent "invalid_action" "You can't bet more than you have!!")
                  p.id w.table.player_ids_to_configs)
                gvaLoop env gh index fuel w attempts iters noPending
              else if new_bet ≤ gh.current_bet then
                let w := w.send (send_specific_message
                  (.errorEvent "invalid_action" "the new bet must be larger than the current bet!")
                  p.id w.table.player_ids_to_configs)
                gvaLoop env gh index fuel w attempts iters noPending
              else
                { w := w, actOpt := some (.Bet new_bet), attempts, iters, noPending,
                  fuelOut := false }
            | some other =>
              { w := w, actOpt := some other, attempts, iters, noPending, fuelOut := false }

/-- The result of `get_and_validate_action`: the world, the action applied
to the seat, and the polling-loop diagnostics. -/
structure GvaOut where
  w : World
  act : PlayerAction
  attempts : Nat
  iters : Nat
  noPending : Nat
  timedOut : Bool
  fuelOut : Bool
deriving Repr

/-- `get_and_validate_action`: preflop blind injection before anything else,
otherwise a prompt followed by the 45-attempt polling loop; a received
action stamps the config heart-beat, a timeout pushes a self-addressed
`SitOut` meta action and sits the player out. -/
def get_and_validate_action (env : Env) (gfuel : Nat) (w : World) (gh : GameHand)
    (index : Nat) : GvaOut :=
  match w.table.seat index with
  | none =>
    { w := { w with fatal := true }, act := .Fold, attempts := 0, iters := 0,
      noPending := 0, timedOut := false, fuelOut := false }
  | some player =>
    if gh.street == .Preflop && gh.current_bet == 0 then
      { w := w, act := .PostSmallBlind (min w.table.small_blind player.money),
        attempts := 0, iters := 0, noPending := 0, timedOut := false, fuelOut := false }
    else if gh.street == .Preflop && gh.current_bet == w.table.small_blind then
      { w := w, act := .PostBigBlind (min w.table.big_blind player.money),
        attempts := 0, iters := 0, noPending := 0, timedOut := false, fuelOut := false }
    else
      let cum := (gh.contributionsFor gh.street).getD index 0
      let text :=
        if cum < gh.current_bet then
          let diff := gh.current_bet - cum
          s!"Enter action ({diff} to call): "
        else
          let cb := gh.current_bet
          s!"Enter action (current bet = {cb}): "
      let w := w.send (send_specific_message (.prompt text gh.current_bet)
        player.id w.table.player_ids_to_configs)
      let out := gvaLoop env gh index gfuel w 0 0 0
      match out.actOpt with
      | some a =>
        let w := out.w
        let w :=
          match configLookup w.table.player_ids_to_configs player.id with
          | some cfg =>
            let configs := configInsert w.table.player_ids_to_configs player.id
              { cfg with heart_beat := w.tick }
            { w with table := { w.table with player_ids_to_configs := configs } }
          | none => w
        { w := w, act := a, attempts := out.attempts, iters := out.iters,
          noPending := out.noPending, timedOut := false, fuelOut := out.fuelOut }
      | none =>
        let w := out.w.absorbMeta env
        let w := { w with meta_queue := w.meta_queue ++ [.SitOut player.id] }
        { w := w, act := .SitOut, attempts := out.attempts, iters := out.iters,
          noPending := out.noPending, timedOut := true, fuelOut := out.fuelOut }

/-- The result of `play_street`: the updated world and hand, whether the
hand is over, and every money debit `(money before, amount subtracted)`
applied during the street. -/
structure StreetOut where
  w : World
  gh : GameHand
  hand_over : Bool
  debits : List (Nat × Nat)
deriving Repr

/-- The configless-seat sweep at the top of each acting turn of
`play_street`, adjusting the all-in and active counters. -/
def sweepSeats (w : World) (num_active num_all_in : Nat) : World × Nat × Nat :=
  (List.range 9).foldl (fun acc j =>
    let w := acc.1
    match w.table.seat j with
    | some p =>
      if (configLookup w.table.player_ids_to_configs p.id).isNone then
        ({ w with table := w.table.setSeat j none },
         acc.2.1 - (if p.is_active then 1 else 0),
         acc.2.2 - (if p.is_all_in then 1 else 0))
      else acc
    | none => acc) (w, num_active, num_all_in)

/-- Apply a validated action to seat `i` (the `match action` of
`play_street`), updating the counters and recording each money debit. -/
def applyAction (w : World) (gh : GameHand) (i : Nat) (p : Player)
    (player_cumulative : Nat) (action : PlayerAction)
    (num_active num_all_in num_settled : Nat) :
    World × GameHand × Nat × Nat × Nat × List (Nat × Nat) :=
  match action with
  | .PostSmallBlind amount =>
    let p2 := { p with money := p.money - amount }
    let gh := { gh with current_bet := w.table.small_blind }
    let all_in := p2.is_all_in
    let num_all_in := num_all_in + (if all_in then 1 else 0)
    let gh := gh.contribute i amount all_in
    ({ w with table := w.table.setSeat i (some p2) }, gh,
     num_active, num_all_in, num_settled, [(p.money, amount)])
  | .PostBigBlind amount =>
    let p2 := { p with money := p.money - amount }
    let gh := { gh with current_bet := w.table.big_blind }
    let all_in := p2.is_all_in
    let num_all_in := num_all_in + (if all_in then 1 else 0)
    let gh := gh.contribute i amount all_in
    ({ w with table := w.table.setSeat i (some p2) }, gh,
     num_active, num_all_in, num_settled, [(p.money, amount)])
  | .Fold =>
    ({ w with table := w.table.setSeat i (some p.deactivate) }, gh,
     num_active - 1, num_all_in, num_settled, [])
  | .SitOut =>
    ({ w with table := w.table.setSeat i (some p.deactivate) }, gh,
     num_active - 1, num_all_in, num_settled, [])
  | .Check =>
    (w, gh, num_active, num_all_in, num_settled + 1, [])
  | .Call =>
    let difference := gh.current_bet - player_cumulative
    if p.money ≤ difference then
      let p2 := { p with money := p.money - p.money }
      let gh := gh.contribute i p.money true
      ({ w with table := w.table.setSeat i (some p2) }, gh,
       num_active, num_all_in + 1, num_settled, [(p.money, p.money)])
    else
      let p2 := { p with money := p.money - difference }
      let gh := gh.contribute i difference false
      ({ w with table := w.table.setSeat i (some p2) }, gh,
       num_active, num_all_in, num_settled + 1, [(p.money, difference)])
  | .Bet new_bet =>
    let difference := new_bet - player_cumulative
    let gh := { gh with current_bet := new_bet }
    let p2 := { p with money := p.money - difference }
    let all_in := p2.is_all_in
    let num_all_in := num_all_in + (if all_in then 1 else 0)
    let num_settled := if all_in then 0 else 1
    let gh := gh.contribute i difference all_in
    ({ w with table := w.table.setSeat i (some p2) }, gh,
     num_active, num_all_in, num_settled, [(p.money, difference)])

/-- The seat visited at step `k` of the `(starting_idx..9).chain(0..starting_idx).cycle()`
iteration. -/
def seatOrderAt (starting_idx k : Nat) : Nat :=
  ((List.range' starting_idx (9 - starting_idx) ++ List.range starting_idx).getD (k % 9) 0)

/-- The outcome of one acting turn of `play_street`: either the street is
finished with a `StreetOut`, or the loop moves on to the next seat. -/
inductive StreetStep where
  | done (out : StreetOut)
  | next (k num_active num_all_in num_settled : Nat) (w : World) (gh : GameHand)
      (debits : List (Nat × Nat))

/-- One acting turn of `play_street`: handle meta actions, sweep configless
seats, stop when one player is left or everyone has settled or shoved, skip
non-acting seats, otherwise obtain and apply a validated action. -/
def streetStep (env : Env) (gfuel starting_idx : Nat) (k num_active num_all_in
    num_settled : Nat) (w : World) (gh : GameHand) (debits : List (Nat × Nat)) :
    StreetStep :=
  let w := handle_meta_actions env false (some gh) w
  let (w, num_active, num_all_in) := sweepSeats w num_active num_all_in
  if num_active == 1 then
    let w := w.send (w.table.send_game_state (some gh) false)
    .done { w := w, gh := gh, hand_over := true, debits := debits }
  else if num_settled + num_all_in == num_active then
    let w := w.send (w.table.send_game_state (some gh) false)
    .done { w := w, gh := gh, hand_over := false, debits := debits }
  else
    let i := seatOrderAt starting_idx k
    match w.table.seat i with
    | none => .next (k + 1) num_active num_all_in num_settled w gh debits
    | some p =>
      if !(p.is_active && decide (0 < p.money)) then
        .next (k + 1) num_active num_all_in num_settled w gh debits
      else
        let gh := { gh with index_to_act := some i }
        let w := w.send (w.table.send_game_state (some gh) false)
        let out := get_and_validate_action env gfuel w gh i
        let w := out.w
        let action := out.act
        let player_cumulative := (gh.contributionsFor gh.street).getD i 0
        match w.table.seat i with
        | none =>
          .done { w := { w with fatal := true }, gh := gh, hand_over := false, debits := debits }
        | some p =>
          let p := { p with last_action := some action }
          let (w, gh, num_active, num_all_in, num_settled, newDebits) :=
            applyAction { w with table := w.table.setSeat i (some p) } gh i p
              player_cumulative action num_active num_all_in num_settled
          .next (k + 1) num_active num_all_in num_settled w gh (debits ++ newDebits)

/-- The acting loop of `play_street` (`loop { ... }`), iterating
`streetStep` under fuel. -/
def streetLoop (env : Env) (gfuel starting_idx sfuel : Nat) :
    Nat → Nat → Nat → Nat → World → GameHand → List (Nat × Nat) → StreetOut :=
  Nat.rec
    (motive := fun _ => Nat → Nat → Nat → Nat → World → GameHand →
      List (Nat × Nat) → StreetOut)
    (fun _ _ _ _ w gh debits =>
      { w := { w with fatal := true }, gh := gh, hand_over := false, debits := debits })
    (fun _ rec k num_active num_all_in num_settled w gh debits =>
      match streetStep env gfuel starting_idx k num_active num_all_in num_settled
          w gh debits with
      | .done out => out
      | .next k2 na2 ni2 ns2 w2 gh2 debits2 => rec k2 na2 ni2 ns2 w2 gh2 debits2)
    sfuel

/-- `play_street`: returns whether the hand is over.  Too few active players
ends the hand; all-but-one players all-in skips the betting; otherwise the
street contributions are initialised and the acting loop runs. -/
def play_street (env : Env) (gfuel sfuel : Nat) (w : World) (gh : GameHand) : StreetOut :=
  let num_all_in := (w.table.players.filterMap id).countP (fun p => p.is_all_in)
  let num_active := (w.table.players.filterMap id).countP (fun p => p.is_active)
  if num_active < 2 then
    { w := w, gh := gh, hand_over := true, debits := [] }
  else if num_all_in + 1 == num_active then
    { w := w, gh := gh, hand_over := false, debits := [] }
  else
    let starting_idx := w.table.get_starting_idx
    let gh := gh.insertStreet gh.street (List.replicate 9 0)
    streetLoop env gfuel starting_idx sfuel 0 num_active num_all_in 0 w gh []

/-- The result of `play_one_hand`: the world, whether a hand was actually
played, the seats and hand as they stood when `finish_hand` was entered
(instrumentation for stating settlement-time properties), and the money
debits of the whole hand. -/
structure HandOut where
  w : World
  played : Bool
  preT : List (Option Player)
  preGh : GameHand
  debits : List (Nat × Nat)
deriving Repr

/-- The street iteration of `play_one_hand` (`while street != ShowDown`):
clear `last_action`, play the street, and either finish or transition.  The
fuel (5 suffices, since `transition` always advances the street) only guards
the recursion. -/
def handStreets (env : Env) (gfuel sfuel : Nat) :
    Nat → World → GameHand → List (Nat × Nat) → World × GameHand × List (Nat × Nat)
  | 0, w, gh, debits => (w, gh, debits)
  | n + 1, w, gh, debits =>
    if gh.street == Street.ShowDown then (w, gh, debits)
    else
      let w := { w with table := w.table.updateSeats (fun p => { p with last_action := none }) }
      let out := play_street env gfuel sfuel w gh
      if out.hand_over then (out.w, out.gh, debits ++ out.debits)
      else
        let (w2, gh2) := transition out.w out.gh
        handStreets env gfuel sfuel n w2 gh2 (debits ++ out.debits)

/-- The seat activation at the top of `play_one_hand`: a funded seat starts
active (even sitting-out ones, which may still owe blinds), a broke seat
starts inactive. -/
def activateFunded (t : Table) : Table :=
  t.updateSeats (fun p =>
    if p.money == 0 then { p with is_active := false } else { p with is_active := true })

/-- `play_one_hand`: activate funded seats; suspend unless the table has a
config and at least two funded players; otherwise announce the hand, drain
stale mailbox actions, broadcast, shuffle, deal, run the streets and settle. -/
def play_one_hand (env : Env) (gfuel sfuel : Nat) (w : World) : HandOut :=
  let gh := GameHand.default
  let t := activateFunded w.table
  let num_active := (t.players.filterMap id).countP (fun p => p.is_active)
  let w := { w with table := t }
  if t.player_ids_to_configs.length < 1 ∨ num_active < 2 then
    let w := w.send (t.send_game_state (some gh) true)
    { w := w, played := false, preT := t.players, preGh := gh, debits := [] }
  else
    let w := w.send (send_group_message (.new_hand t.hand_num t.button_idx)
      t.player_ids_to_configs)
    let w := w.absorbMail env
    let w := { w with mailbox := [] }
    let w := w.send (w.table.send_game_state (some gh) false)
    let w := { w with table := { w.table with deck := env.shuffleAt w.tick }, tick := w.tick + 1 }
    let w := deal_hands w
    let (w, gh, debits) := handStreets env gfuel sfuel 5 w gh []
    let preT := w.table.players
    let w := finish_hand env w gh
    { w := w, played := true, preT := preT, preGh := gh, debits := debits }

/-- Why the hand loop of `play` ended. -/
inductive ExitReason where
  | limitReached
  | nonHumanLimit
  | buttonFail
  | fuelOut
deriving DecidableEq, Repr

/-- One iteration of the hand loop that reached `play_one_hand`: the hand
number it was begun with, how many humans were seated, and whether it was
actually played (instrumentation). -/
structure PlayEntry where
  hand_num : Nat
  humans : Nat
  played : Bool
deriving DecidableEq, Repr

/-- The result of the hand loop. -/
structure PlayOut where
  w : World
  log : List PlayEntry
  exitReason : ExitReason
deriving Repr

/-- The seat sweep at the top of the hand loop: drop seats whose config
disappeared. -/
def sweepConfigless (w : World) : World :=
  (List.range 9).foldl (fun w j =>
    match w.table.seat j with
    | some p =>
      if (configLookup w.table.player_ids_to_configs p.id).isNone then
        { w with table := w.table.setSeat j none }
      else w
    | none => w) w

/-- The hand loop of `play`: meta actions, heart-beats, seat sweep, the
hand-limit check, the no-human counter (`NON_HUMAN_HANDS_LIMIT = 3`, never
reset), then a hand; a played hand advances the hand number and the button
(`expect`ing a valid button). -/
def playLoop (env : Env) (gfuel sfuel : Nat) (hand_limit : Option Nat) :
    Nat → Nat → World → List PlayEntry → PlayOut
  | 0, _, w, log => { w := w, log := log, exitReason := .fuelOut }
  | fuel + 1, non_human_hands, w, log =>
    let w := handle_meta_actions env true none w
    let w := handle_player_heart_beats env w
    let w := sweepConfigless w
    if (match hand_limit with
        | some limit => decide (limit < w.table.hand_num)
        | none => false) then
      { w := w, log := log, exitReason := .limitReached }
    else
      let num_human := ((w.table.players.filterMap id).filter
        (fun p => p.human_controlled)).length
      let non_human_hands := if num_human == 0 then non_human_hands + 1 else non_human_hands
      if 3 < non_human_hands then
        { w := w, log := log, exitReason := .nonHumanLimit }
      else
        let entry : PlayEntry :=
          { hand_num := w.table.hand_num, humans := num_human, played := false }
        let out := play_one_hand env gfuel sfuel w
        let w := out.w
        let entry := { entry with played := out.played }
        if out.played then
          let w := { w with table := { w.table with hand_num := w.table.hand_num + 1 } }
          match w.table.find_next_button with
          | some b =>
            playLoop env gfuel sfuel hand_limit fuel non_human_hands
              { w with table := { w.table with button_idx := b } } (log ++ [entry])
          | none =>
            { w := { w with fatal := true }, log := log ++ [entry], exitReason := .buttonFail }
        else
          playLoop env gfuel sfuel hand_limit fuel non_human_hands w (log ++ [entry])

/-- `play(hand_limit)`: run the hand loop; when it ends by the hand limit or
the no-human limit (not by the button `expect` panic), tell the hub the game
is over. -/
def Table.play (env : Env) (gfuel sfuel : Nat) (hand_limit : Option Nat) (fuel : Nat)
    (w : World) : PlayOut :=
  let out := playLoop env gfuel sfuel hand_limit fuel 0 w []
  match out.exitReason with
  | .limitReached => { out with w := out.w.sendHub (.GameOver out.w.table.name) }
  | .nonHumanLimit => { out with w := out.w.sendHub (.GameOver out.w.table.name) }
  | _ => out

/-! ## Concrete fixtures used by witnesses and counterexamples -/

/-- An environment that delivers nothing and answers every oracle with 0. -/
def zeroEnv : Env :=
  { metaAt := fun _ => []
  , mailAt := fun _ => []
  , rngAt := fun _ => 0
  , shuffleAt := fun _ => []
  , rankAt := fun _ _ => 0
  , uuidAt := fun _ => 0
  , player_timeout := 1000000 }

/-- A funded human player fixture. -/
def mkHuman (id money : Nat) : Player :=
  { id := id, hole_cards := [], is_active := true, is_sitting_out := false
  , money := money, human_controlled := true, last_action := none }

/-- A config fixture with an address. -/
def mkCfgA (id addr : Nat) (nm : String) : PlayerConfig :=
  { id := id, name := some nm, player_addr := some addr, heart_beat := 0 }

/-- A world wrapped around a table with empty inboxes and logs. -/
def mkWorld (t : Table) : World :=
  { table := t, meta_queue := [], mailbox := [], events := [], hub_msgs := []
  , tick := 0, fatal := false }

/-! ## C10 — all-in short-circuit of `play_street` -/

/-- C10: if at the start of `play_street` the all-in players are exactly one
fewer than the active players (and a street is otherwise playable, i.e. at
least two actives), `play_street` returns `false` immediately: the world is
untouched (no prompt, no action solicited) and no contributions are recorded
for the street. -/
theorem play_street_all_in_short_circuit (env : Env) (gfuel sfuel : Nat)
    (w : World) (gh : GameHand)
    (hactive : 2 ≤ (w.table.players.filterMap id).countP (fun p => p.is_active))
    (hallin : (w.table.players.filterMap id).countP (fun p => p.is_all_in) + 1 =
      (w.table.players.filterMap id).countP (fun p => p.is_active)) :
    play_street env gfuel sfuel w gh =
      { w := w, gh := gh, hand_over := false, debits := [] } := by
  unfold play_street
  simp only [hallin, Nat.not_lt.mpr hactive, if_false, beq_self_eq_true, if_true]

/-- A world with two active seats, one of them all-in, for the C10 witness. -/
def c10World : World :=
  mkWorld { Table.default with
    players := [some (mkHuman 1 5), some { mkHuman 2 5 with money := 0 }] ++
      List.replicate 7 none }

/-- Witness for C10: at `c10World` the street is skipped with nothing
changed. -/
theorem play_street_all_in_short_circuit_witness :
    (2 ≤ (c10World.table.players.filterMap id).countP (fun p => p.is_active)) ∧
    play_street zeroEnv 0 0 c10World GameHand.default =
      { w := c10World, gh := GameHand.default, hand_over := false, debits := [] } :=
  ⟨by decide, play_street_all_in_short_circuit zeroEnv 0 0 _ _ (by decide) (by decide)⟩

/-! ## C5 — preflop blind injection in `get_and_validate_action` -/

/-- The claim C5 as stated: on a preflop street with `current_bet =
small_blind` the engine always returns `PostBigBlind(min(big_blind, money))`. -/
def c5ClaimStatement : Prop :=
  ∀ (env : Env) (gfuel : Nat) (w : World) (gh : GameHand) (index : Nat) (p : Player),
    w.table.seat index = some p →
    gh.street = Street.Preflop →
    gh.current_bet = w.table.small_blind →
    (get_and_validate_action env gfuel w gh index).act =
      .PostBigBlind (min w.table.big_blind p.money)

/-- A table whose small blind is 0 (reachable through the admin command
`SmallBlind(0)`), with one funded human seat. -/
def c5World : World :=
  mkWorld { Table.default with
    small_blind := 0
    players := [some (mkHuman 1 1000)] ++ List.replicate 8 none }

/-- Counterexample for C5: with `small_blind = 0` and `current_bet = 0 =
small_blind`, the small-blind branch fires first and the engine returns
`PostSmallBlind(0)`, not `PostBigBlind(min(big_blind, money))`. -/
theorem c5_counterexample : ¬ c5ClaimStatement := by
  intro h
  exact absurd
    (h zeroEnv 0 c5World GameHand.default 0 (mkHuman 1 1000) (by decide) rfl (by decide))
    (by decide)

/-- C5 (amended): on a preflop street, `get_and_validate_action` returns
`PostSmallBlind(min(small_blind, money))` when `current_bet = 0`, and
`PostBigBlind(min(big_blind, money))` when `current_bet = small_blind` and
`current_bet ≠ 0` (when `small_blind = 0` the small-blind branch takes
precedence).  In both cases nothing else happens: the world is returned
unchanged — no prompt, no mailbox consultation (the result is the same for
every environment and mailbox), no heart-beat stamp — so the blind is
compulsory for every seat whose turn it is, including sitting-out seats. -/
theorem gva_preflop_blind_injection (env : Env) (gfuel : Nat) (w : World)
    (gh : GameHand) (index : Nat) (p : Player)
    (hseat : w.table.seat index = some p) :
    (gh.street = Street.Preflop → gh.current_bet = 0 →
      get_and_validate_action env gfuel w gh index =
        { w := w, act := .PostSmallBlind (min w.table.small_blind p.money),
          attempts := 0, iters := 0, noPending := 0, timedOut := false, fuelOut := false }) ∧
    (gh.street = Street.Preflop → gh.current_bet = w.table.small_blind →
      gh.current_bet ≠ 0 →
      get_and_validate_action env gfuel w gh index =
        { w := w, act := .PostBigBlind (min w.table.big_blind p.money),
          attempts := 0, iters := 0, noPending := 0, timedOut := false, fuelOut := false }) := by
  constructor
  · intro hs hcb
    unfold get_and_validate_action
    rw [hseat]
    simp [hs, hcb]
  · intro hs hcb hne
    rw [hcb] at hne
    unfold get_and_validate_action
    rw [hseat]
    simp [hs, hcb, hne]

/-- A sitting-out funded human for the C5 witness. -/
def c5WitnessPlayer : Player := { mkHuman 1 1000 with is_sitting_out := true }

/-- A world seating only `c5WitnessPlayer` for the C5 witness. -/
def c5WitnessWorld : World :=
  mkWorld { Table.default with
    players := [some c5WitnessPlayer] ++ List.replicate 8 none }

/-- Witness for the amended C5 at a concrete sitting-out seat: the small
blind is injected with the world unchanged. -/
theorem gva_preflop_blind_injection_witness :
    c5WitnessWorld.table.seat 0 = some c5WitnessPlayer ∧
    get_and_validate_action zeroEnv 0 c5WitnessWorld GameHand.default 0 =
      { w := c5WitnessWorld
      , act := .PostSmallBlind (min c5WitnessWorld.table.small_blind c5WitnessPlayer.money)
      , attempts := 0, iters := 0, noPending := 0, timedOut := false, fuelOut := false } :=
  ⟨by decide,
    (gva_preflop_blind_injection zeroEnv 0 c5WitnessWorld GameHand.default 0
      c5WitnessPlayer (by decide)).1 rfl rfl⟩

/-! ## Structural lemmas about broadcasts and seat maps -/

/-- Folding appends equals a monadic bind. -/
theorem foldl_append_eq_bind {α β : Type} (g : α → List β) (l : List α) (acc : List β) :
    l.foldl (fun acc i => acc ++ g i) acc = acc ++ l.bind g := by
  induction l generalizing acc with
  | nil => simp
  | cons x xs ih => simp [ih]

/-- Membership in the deliveries of `send_game_state` comes seat by seat. -/
theorem mem_send_game_state (t : Table) (gh? : Option GameHand) (susp : Bool)
    (e : Nat × Msg) :
    e ∈ t.send_game_state gh? susp ↔
      ∃ i, i ∈ List.range 9 ∧ e ∈ seatStateMsgs t (t.get_game_state_json gh? susp) i := by
  unfold Table.send_game_state
  rw [foldl_append_eq_bind]
  simp [List.mem_bind]

/-- Every delivery of `send_game_state` is a `game_state` message carrying
the suspension flag it was called with. -/
theorem send_game_state_flag (t : Table) (gh? : Option GameHand) (susp : Bool) :
    ∀ e ∈ t.send_game_state gh? susp,
      ∃ gs, e.2 = Msg.game_state gs ∧ gs.game_suspended = susp := by
  intro e he
  rw [mem_send_game_state] at he
  obtain ⟨i, -, hi⟩ := he
  unfold seatStateMsgs at hi
  cases hseat : t.seat i with
  | none => simp only [hseat] at hi; simp at hi
  | some p =>
    simp only [hseat] at hi
    unfold send_specific_message at hi
    cases hcfg : configLookup t.player_ids_to_configs p.id with
    | none => simp only [hcfg] at hi; simp at hi
    | some c =>
      simp only [hcfg] at hi
      cases haddr : c.player_addr with
      | none => simp only [haddr] at hi; simp at hi
      | some a =>
        simp only [haddr, List.mem_singleton] at hi
        subst hi
        exact ⟨_, rfl, by simp [Table.get_game_state_json]⟩

/-- `filterMap id` past a seat-wise `Option.map`. -/
theorem filterMap_id_map_optionMap (f : Player → Player) (l : List (Option Player)) :
    (l.map (Option.map f)).filterMap id = (l.filterMap id).map f := by
  induction l with
  | nil => rfl
  | cons x xs ih => cases x <;> simp [ih]

/-- Activation keeps exactly the funded seats active. -/
theorem activateFunded_active_count (t : Table) :
    ((activateFunded t).players.filterMap id).countP (fun p => p.is_active) =
      (t.players.filterMap id).countP (fun p => decide (0 < p.money)) := by
  unfold activateFunded Table.updateSeats
  rw [show ({ t with players := t.players.map (fun sp => Option.map (fun p =>
      if p.money == 0 then { p with is_active := false }
      else { p with is_active := true }) sp) } : Table).players =
      t.players.map (Option.map (fun p =>
        if p.money == 0 then { p with is_active := false }
        else { p with is_active := true })) from rfl]
  rw [filterMap_id_map_optionMap, List.countP_map]
  apply List.countP_congr
  intro p _
  by_cases hm : p.money = 0 <;>
    simp [hm, Function.comp, Nat.pos_iff_ne_zero]

/-- Activation leaves the money of every seat unchanged. -/
theorem activateFunded_money (t : Table) :
    (activateFunded t).players.map (fun sp => sp.map Player.money) =
      t.players.map (fun sp => sp.map Player.money) := by
  unfold activateFunded Table.updateSeats
  simp only [List.map_map]
  apply List.map_congr_left
  intro sp _
  cases sp with
  | none => rfl
  | some p => by_cases hm : p.money = 0 <;> simp [Function.comp, hm]

/-- Activation leaves the hole cards of every seat unchanged. -/
theorem activateFunded_hole_cards (t : Table) :
    (activateFunded t).players.map (fun sp => sp.map Player.hole_cards) =
      t.players.map (fun sp => sp.map Player.hole_cards) := by
  unfold activateFunded Table.updateSeats
  simp only [List.map_map]
  apply List.map_congr_left
  intro sp _
  cases sp with
  | none => rfl
  | some p => by_cases hm : p.money = 0 <;> simp [Function.comp, hm]

/-! ## C2 — `play_one_hand` suspends with too few players -/

/-- The suspended early return of `play_one_hand`, as an equation: under the
source's own gate the flags are set, one suspended game state is broadcast,
and nothing else happens. -/
theorem play_one_hand_suspended_eq (env : Env) (gfuel sfuel : Nat) (w : World)
    (h : (activateFunded w.table).player_ids_to_configs.length < 1 ∨
      ((activateFunded w.table).players.filterMap id).countP (fun p => p.is_active) < 2) :
    play_one_hand env gfuel sfuel w =
      { w := { w with
                table := activateFunded w.table,
                events := w.events ++
                  (activateFunded w.table).send_game_state (some GameHand.default) true },
        played := false,
        preT := (activateFunded w.table).players,
        preGh := GameHand.default,
        debits := [] } := by
  unfold play_one_hand
  rw [if_pos h]
  rfl

/-- C2: called with fewer than two occupied seats or fewer than two funded
players, `play_one_hand` broadcasts a suspended game state and returns
`false`, without shuffling (the deck and oracle tick are untouched), dealing
cards, or changing any player's money. -/
theorem play_one_hand_suspends (env : Env) (gfuel sfuel : Nat) (w : World)
    (h : (w.table.players.filterMap id).length < 2 ∨
      (w.table.players.filterMap id).countP (fun p => decide (0 < p.money)) < 2) :
    (play_one_hand env gfuel sfuel w).played = false ∧
    (play_one_hand env gfuel sfuel w).w.events =
      w.events ++ (activateFunded w.table).send_game_state (some GameHand.default) true ∧
    (∀ e ∈ (activateFunded w.table).send_game_state (some GameHand.default) true,
      ∃ gs, e.2 = Msg.game_state gs ∧ gs.game_suspended = true) ∧
    (play_one_hand env gfuel sfuel w).w.table.players.map (fun sp => sp.map Player.money) =
      w.table.players.map (fun sp => sp.map Player.money) ∧
    (play_one_hand env gfuel sfuel w).w.table.players.map
        (fun sp => sp.map Player.hole_cards) =
      w.table.players.map (fun sp => sp.map Player.hole_cards) ∧
    (play_one_hand env gfuel sfuel w).w.table.deck = w.table.deck ∧
    (play_one_hand env gfuel sfuel w).w.tick = w.tick ∧
    (play_one_hand env gfuel sfuel w).w.mailbox = w.mailbox := by
  have hfew : (w.table.players.filterMap id).countP (fun p => decide (0 < p.money)) < 2 := by
    rcases h with h | h
    · exact Nat.lt_of_le_of_lt (List.countP_le_length _) h
    · exact h
  have hcode : (activateFunded w.table).player_ids_to_configs.length < 1 ∨
      ((activateFunded w.table).players.filterMap id).countP (fun p => p.is_active) < 2 :=
    Or.inr (by rw [activateFunded_active_count]; exact hfew)
  rw [play_one_hand_suspended_eq env gfuel sfuel w hcode]
  refine ⟨rfl, rfl, send_game_state_flag _ _ _, ?_, ?_, rfl, rfl, rfl⟩
  · exact activateFunded_money w.table
  · exact activateFunded_hole_cards w.table

/-- Witness for C2: a single seated funded player at a concrete table: the
hand is suspended with the money untouched. -/
theorem play_one_hand_suspends_witness :
    ((mkWorld { Table.default with
        players := [some (mkHuman 1 1000)] ++ List.replicate 8 none
        player_ids_to_configs := [(1, mkCfgA 1 77 "Human1")] }).table.players.filterMap
          id).length < 2 ∧
    (play_one_hand zeroEnv 0 0 (mkWorld { Table.default with
        players := [some (mkHuman 1 1000)] ++ List.replicate 8 none
        player_ids_to_configs := [(1, mkCfgA 1 77 "Human1")] })).played = false ∧
    (play_one_hand zeroEnv 0 0 (mkWorld { Table.default with
        players := [some (mkHuman 1 1000)] ++ List.replicate 8 none
        player_ids_to_configs := [(1, mkCfgA 1 77 "Human1")] })).w.table.players.map
      (fun sp => sp.map Player.money) =
      (mkWorld { Table.default with
        players := [some (mkHuman 1 1000)] ++ List.replicate 8 none
        player_ids_to_configs := [(1, mkCfgA 1 77 "Human1")] }).table.players.map
      (fun sp => sp.map Player.money) := by
  refine ⟨by decide, ?_, ?_⟩
  · exact (play_one_hand_suspends zeroEnv 0 0 _ (Or.inl (by decide))).1
  · exact (play_one_hand_suspends zeroEnv 0 0 _ (Or.inl (by decide))).2.2.2.1

/-! ## C6 — admin command gating -/

/-- C6: handling one `Admin(rid, cmd)` meta action (no concurrent arrivals,
requester reachable at `addr`):
(a) between hands, a non-admin requester changes nothing and alone receives
`error.not_admin`;
(b) between hands, the admin on a password-less table changes nothing and
receives `error.not_private`;
(c) between hands, the admin of a password-protected table setting
`SmallBlind v` updates the small blind and receives `admin_success`;
(d) during a hand the command is not applied but re-enqueued at the tail of
the meta-action queue. -/
theorem admin_command_gating (env : Env) (w : World) (rid : Nat) (cmd : AdminCommand)
    (gh? : Option GameHand) (cfg : PlayerConfig) (addr : Nat)
    (hq : w.meta_queue = [.Admin rid cmd])
    (harr : env.metaAt w.tick = [])
    (hcfg : configLookup w.table.player_ids_to_configs rid = some cfg)
    (haddr : cfg.player_addr = some addr) :
    (w.table.admin_id ≠ rid →
      handle_meta_actions env true gh? w =
        { w with
            tick := w.tick + 1,
            meta_queue := [],
            events := w.events ++
              [(addr, Msg.errorEvent "not_admin" "You cannot update a table that you are not the admin for.")] }) ∧
    (w.table.admin_id = rid → w.table.password = none →
      handle_meta_actions env true gh? w =
        { w with
            tick := w.tick + 1,
            meta_queue := [],
            events := w.events ++
              [(addr, Msg.errorEvent "not_private" "You cannot update a table that is not private.")] }) ∧
    (∀ pw v, w.table.admin_id = rid → w.table.password = some pw → cmd = .SmallBlind v →
      handle_meta_actions env true gh? w =
        { w with
            tick := w.tick + 1,
            meta_queue := [],
            table := { w.table with small_blind := v },
            events := w.events ++
              [(addr, Msg.admin_success (some "small_blind") s!"The small blind has been changed to {v}")] }) ∧
    (handle_meta_actions env false gh? w =
      { w with tick := w.tick + 1, meta_queue := [.Admin rid cmd] }) := by
  refine ⟨?_, ?_, ?_, ?_⟩
  · intro hna
    unfold handle_meta_actions World.absorbMeta
    simp only [hq, harr, List.append_nil, List.length_singleton]
    unfold hmaDrain handleOneMeta handle_admin_command send_specific_message World.send
    simp [hcfg, haddr, hmaDrain, hna]
  · intro hadm hpw
    unfold handle_meta_actions World.absorbMeta
    simp only [hq, harr, List.append_nil, List.length_singleton]
    unfold hmaDrain handleOneMeta handle_admin_command send_specific_message World.send
    simp [hcfg, haddr, hmaDrain, hadm, hpw]
  · intro pw v hadm hpw hcmd
    subst hcmd
    unfold handle_meta_actions World.absorbMeta
    simp only [hq, harr, List.append_nil, List.length_singleton]
    unfold hmaDrain handleOneMeta handle_admin_command send_specific_message World.send
    simp [hcfg, haddr, hmaDrain, hadm, hpw]
  · unfold handle_meta_actions World.absorbMeta
    simp only [hq, harr, List.append_nil, List.length_singleton]
    unfold hmaDrain handleOneMeta
    simp [hmaDrain]

/-- A password-protected table whose admin (id 5, reachable at address 9)
has queued `SmallBlind 5`, for the C6 witness. -/
def c6World : World :=
  { mkWorld { Table.default with
      admin_id := 5,
      password := some "secret",
      player_ids_to_configs := [(5, mkCfgA 5 9 "Admin")] } with
    meta_queue := [.Admin 5 (.SmallBlind 5)] }

/-- Witness for C6: at `c6World` the admin command is applied between hands
(small blind set to 5, `admin_success` to the requester alone) and deferred
to the queue tail during a hand. -/
theorem admin_command_gating_witness :
    c6World.table.admin_id = 5 ∧
    c6World.table.password = some "secret" ∧
    (handle_meta_actions zeroEnv true none c6World =
      { c6World with
          tick := 1,
          meta_queue := [],
          table := { c6World.table with small_blind := 5 },
          events := [(9, Msg.admin_success (some "small_blind") "The small blind has been changed to 5")] }) ∧
    (handle_meta_actions zeroEnv false none c6World =
      { c6World with tick := 1, meta_queue := [.Admin 5 (.SmallBlind 5)] }) := by
  have h := admin_command_gating zeroEnv c6World 5 (.SmallBlind 5) none
    (mkCfgA 5 9 "Admin") 9 rfl rfl (by decide) rfl
  exact ⟨rfl, rfl, h.2.2.1 "secret" 5 rfl rfl rfl, h.2.2.2⟩

/-! ## C7 — the join contract -/

/-- A failing `add_player` leaves the table untouched. -/
theorem add_player_error_unchanged (t : Table) (cfg : PlayerConfig) (p : Player)
    (e : JoinTableError) (h : (t.add_player cfg p).2 = .error e) :
    (t.add_player cfg p).1 = t := by
  unfold Table.add_player
  unfold Table.add_player at h
  cases hfind : (List.range 9).find? (fun i =>
      match t.seat i with
      | some existing => existing.id == p.id
      | none => false) with
  | some i => rw [hfind] at h; simp at h
  | none =>
    rw [hfind] at h
    dsimp only at h ⊢
    by_cases hful : t.max_players ≤ (t.players.filterMap id).length
    · rw [if_pos hful]
    · rw [if_neg hful] at h ⊢
      cases hempty : (List.range 9).find? (fun i => (t.seat i).isNone) with
      | some i => rw [hempty] at h; simp at h
      | none => rfl

/-- A failing `add_human` leaves the table untouched (join atomicity). -/
theorem add_human_error_unchanged (t : Table) (cfg : PlayerConfig) (pw : Option String)
    (e : JoinTableError) (h : (t.add_human cfg pw).2 = .error e) :
    (t.add_human cfg pw).1 = t := by
  unfold Table.add_human
  unfold Table.add_human at h
  cases hp : t.password with
  | none =>
    rw [hp] at h
    cases pw with
    | none => exact add_player_error_unchanged _ _ _ _ h
    | some given => exact add_player_error_unchanged _ _ _ _ h
  | some gp =>
    rw [hp] at h
    cases pw with
    | none => rfl
    | some given =>
      dsimp only at h ⊢
      by_cases hne : gp ≠ given
      · rw [if_pos hne]
      · rw [if_neg hne] at h ⊢
        exact add_player_error_unchanged _ _ _ _ h

/-- C7: the join contract of `add_human`/`add_player` and the lobby
notification of `handle_meta_actions`:
(i) a wrong password fails with `InvalidPassword`, leaving the table
unchanged;
(ii) a missing password on a protected table fails with `MissingPassword`,
leaving the table unchanged;
(iii) with the password gate passed, an id that is not already seated and a
table whose occupied seats have reached `max_players` fails with
`GameIsFull`, leaving the table unchanged;
(iv) every join failure handled as a meta action (no concurrent arrivals,
hub connected) notifies the lobby with `Returned(FailureToJoin)` and changes
nothing else;
(v) with the password gate passed, a join by an id already seated at the
first matching seat `j` only re-inserts the config and returns `j`. -/
theorem join_contract (t : Table) (cfg : PlayerConfig) :
    (∀ gp given, t.password = some gp → given ≠ gp →
      t.add_human cfg (some given) = (t, .error .InvalidPassword)) ∧
    (∀ gp, t.password = some gp →
      t.add_human cfg none = (t, .error .MissingPassword)) ∧
    (∀ pw, (t.password = none ∨ ∃ g, t.password = some g ∧ pw = some g) →
      (∀ i ∈ List.range 9, ∀ ex, t.seat i = some ex → ex.id ≠ cfg.id) →
      t.max_players ≤ (t.players.filterMap id).length →
      t.add_human cfg pw = (t, .error .GameIsFull)) ∧
    (∀ (env : Env) (w : World) (pw : Option String) (gh? : Option GameHand)
      (e : JoinTableError),
      w.meta_queue = [.Join cfg pw] →
      env.metaAt w.tick = [] →
      w.table = t →
      t.hub_addr = true →
      (t.add_human cfg pw).2 = .error e →
      handle_meta_actions env true gh? w =
        { w with
            tick := w.tick + 1,
            meta_queue := [],
            hub_msgs := w.hub_msgs ++ [.Returned cfg (.FailureToJoin e)] }) ∧
    (∀ pw j, (t.password = none ∨ ∃ g, t.password = some g ∧ pw = some g) →
      (List.range 9).find? (fun i =>
        match t.seat i with
        | some existing => existing.id == cfg.id
        | none => false) = some j →
      t.add_human cfg pw =
        ({ t with player_ids_to_configs := configInsert t.player_ids_to_configs cfg.id cfg },
         .ok j)) := by
  refine ⟨?_, ?_, ?_, ?_, ?_⟩
  · intro gp given hp hne
    unfold Table.add_human
    rw [hp]
    dsimp only
    rw [if_pos (Ne.symm hne)]
  · intro gp hp
    unfold Table.add_human
    rw [hp]
  · intro pw hpass hnot hful
    have hfind : (List.range 9).find? (fun i =>
        match t.seat i with
        | some existing => existing.id == (Player.new cfg.id true t.buy_in).id
        | none => false) = none := by
      rw [List.find?_eq_none]
      intro i hi
      cases hseat : t.seat i with
      | none => simp
      | some ex => simp [Player.new]; exact fun hid => hnot i hi ex hseat (by simp [hid])
    have hplay : t.add_player cfg (Player.new cfg.id true t.buy_in) =
        (t, .error .GameIsFull) := by
      unfold Table.add_player
      rw [hfind, if_pos hful]
    unfold Table.add_human
    rcases hpass with hp | ⟨g, hp, hpw⟩
    · rw [hp]
      cases pw <;> exact hplay
    · subst hpw
      rw [hp]
      dsimp only
      rw [if_neg (fun hh => hh rfl)]
      exact hplay
  · intro env w pw gh? e hq harr hw hhub herr
    have heq : t.add_human cfg pw = (t, .error e) :=
      Prod.ext ((add_human_error_unchanged t cfg pw e herr).trans rfl) (herr.trans rfl)
    unfold handle_meta_actions World.absorbMeta
    simp only [hq, harr, List.append_nil, List.length_singleton]
    simp [hmaDrain, handleOneMeta, hw, heq, World.sendHub, World.send, hhub]
  · intro pw j hpass hfind
    have hfind2 : (List.range 9).find? (fun i =>
        match t.seat i with
        | some existing => existing.id == (Player.new cfg.id true t.buy_in).id
        | none => false) = some j := hfind
    have hplay : t.add_player cfg (Player.new cfg.id true t.buy_in) =
        ({ t with player_ids_to_configs := configInsert t.player_ids_to_configs cfg.id cfg },
         .ok j) := by
      unfold Table.add_player
      rw [hfind2]
    unfold Table.add_human
    rcases hpass with hp | ⟨g, hp, hpw⟩
    · rw [hp] at hplay ⊢
      cases pw <;> exact hplay
    · subst hpw
      rw [hp] at hplay ⊢
      dsimp only
      rw [if_neg (fun hh => hh rfl)]
      exact hplay

/-- A full (one-seat) password-protected table connected to the hub, for the
C7 witness. -/
def c7Table : Table :=
  { Table.default with
      hub_addr := true,
      password := some "pw",
      max_players := 1,
      players := [some (mkHuman 1 1000)] ++ List.replicate 8 none,
      player_ids_to_configs := [(1, mkCfgA 1 31 "Seated")] }

/-- A joining config with a fresh id, for the C7 witness. -/
def c7Joiner : PlayerConfig := mkCfgA 9 32 "Joiner"

/-- A rejoining config with the already-seated id, for the C7 witness. -/
def c7Rejoin : PlayerConfig := mkCfgA 1 33 "Seated"

/-- A world whose queue holds a join with a wrong password, for the C7
witness. -/
def c7JoinWorld : World :=
  { mkWorld c7Table with meta_queue := [.Join c7Joiner (some "bad")] }

/-- Witness for C7 at `c7Table`: wrong password, missing password, full
table, lobby notification, and idempotent re-join. -/
theorem join_contract_witness :
    c7Table.add_human c7Joiner (some "bad") = (c7Table, .error .InvalidPassword) ∧
    c7Table.add_human c7Joiner none = (c7Table, .error .MissingPassword) ∧
    c7Table.add_human c7Joiner (some "pw") = (c7Table, .error .GameIsFull) ∧
    (handle_meta_actions zeroEnv true none c7JoinWorld =
      { c7JoinWorld with
          tick := 1,
          meta_queue := [],
          hub_msgs := [.Returned c7Joiner (.FailureToJoin .InvalidPassword)] }) ∧
    c7Table.add_human c7Rejoin (some "pw") =
      ({ c7Table with
          player_ids_to_configs := configInsert c7Table.player_ids_to_configs 1 c7Rejoin },
       .ok 0) := by
  have h := join_contract c7Table c7Joiner
  have h2 := join_contract c7Table c7Rejoin
  exact ⟨h.1 "pw" "bad" rfl (by decide),
    h.2.1 "pw" rfl,
    h.2.2.1 (some "pw") (Or.inr ⟨"pw", rfl, rfl⟩) (by decide) (by decide),
    h.2.2.2.1 zeroEnv c7JoinWorld (some "bad") none .InvalidPassword rfl rfl rfl rfl rfl,
    h2.2.2.2.2 (some "pw") 0 (Or.inr ⟨"pw", rfl, rfl⟩) (by decide)⟩

/-! ## C8 — hole-card privacy of `send_game_state` -/

/-- C8: (structure) every event `send_game_state` delivers is the message of
some seat `i`, sent to the address of the seated player's own config, and its
`hole_cards` field carries exactly that player's own hole cards (or `null`
when they hold fewer than two); (privacy) hence, when distinct seats are
reachable at distinct addresses, an event delivered to a player's address
never carries another seat's hole cards. -/
theorem hole_card_privacy (t : Table) (gh? : Option GameHand) (susp : Bool) :
    (∀ e ∈ t.send_game_state gh? susp,
      ∃ i p c, i ∈ List.range 9 ∧ t.seat i = some p ∧
        configLookup t.player_ids_to_configs p.id = some c ∧
        c.player_addr = some e.1 ∧
        ∃ gs, e.2 = Msg.game_state gs ∧ gs.your_index = some i ∧
          gs.hole_cards = (if p.hole_cards.length == 2 then some p.hole_cards else none)) ∧
    ((∀ i ∈ List.range 9, ∀ j ∈ List.range 9, ∀ pi pj ci cj a,
        t.seat i = some pi → t.seat j = some pj →
        configLookup t.player_ids_to_configs pi.id = some ci →
        configLookup t.player_ids_to_configs pj.id = some cj →
        ci.player_addr = some a → cj.player_addr = some a → i = j) →
      ∀ e ∈ t.send_game_state gh? susp, ∀ j ∈ List.range 9, ∀ q cq,
        t.seat j = some q →
        configLookup t.player_ids_to_configs q.id = some cq →
        cq.player_addr = some e.1 →
        ∃ gs, e.2 = Msg.game_state gs ∧
          gs.hole_cards = (if q.hole_cards.length == 2 then some q.hole_cards else none)) := by
  have hstruct : ∀ e ∈ t.send_game_state gh? susp,
      ∃ i p c, i ∈ List.range 9 ∧ t.seat i = some p ∧
        configLookup t.player_ids_to_configs p.id = some c ∧
        c.player_addr = some e.1 ∧
        ∃ gs, e.2 = Msg.game_state gs ∧ gs.your_index = some i ∧
          gs.hole_cards = (if p.hole_cards.length == 2 then some p.hole_cards else none) := by
    intro e he
    rw [mem_send_game_state] at he
    obtain ⟨i, hi, hmem⟩ := he
    unfold seatStateMsgs at hmem
    cases hseat : t.seat i with
    | none => simp only [hseat] at hmem; simp at hmem
    | some p =>
      simp only [hseat] at hmem
      unfold send_specific_message at hmem
      cases hcfg : configLookup t.player_ids_to_configs p.id with
      | none => simp only [hcfg] at hmem; simp at hmem
      | some c =>
        simp only [hcfg] at hmem
        cases haddr : c.player_addr with
        | none => simp only [haddr] at hmem; simp at hmem
        | some a =>
          simp only [haddr, List.mem_singleton] at hmem
          subst hmem
          exact ⟨i, p, c, hi, hseat, hcfg, haddr, _, rfl, rfl, rfl⟩
  refine ⟨hstruct, ?_⟩
  intro haddrinj e he j hj q cq hseatq hcfgq haddrq
  obtain ⟨i, p, c, hi, hseat, hcfg, haddr, gs, hgs, -, hcards⟩ := hstruct e he
  have hij : i = j := haddrinj i hi j hj p q c cq e.1 hseat hseatq hcfg hcfgq
    haddr haddrq
  subst hij
  rw [hseat] at hseatq
  cases hseatq
  exact ⟨gs, hgs, hcards⟩

/-- A player holding two hole cards, for the C8 witness. -/
def c8Player1 : Player :=
  { mkHuman 1 1000 with hole_cards := [⟨5, .club⟩, ⟨6, .heart⟩] }

/-- A second player holding two other hole cards, for the C8 witness. -/
def c8Player2 : Player :=
  { mkHuman 2 1000 with hole_cards := [⟨7, .spade⟩, ⟨8, .diamond⟩] }

/-- A two-seat table with distinct recipient addresses, for the C8 witness. -/
def c8Table : Table :=
  { Table.default with
      players := [some c8Player1, some c8Player2] ++ List.replicate 7 none,
      player_ids_to_configs := [(1, mkCfgA 1 41 "A"), (2, mkCfgA 2 42 "B")] }

/-- The first event `send_game_state` delivers at `c8Table`. -/
def c8Event : Nat × Msg :=
  (c8Table.send_game_state none false).getD 0 (0, Msg.player_left none)

/-- The recipient address used for the player seated at `i`. -/
def addrAt (t : Table) (i : Nat) : Option Nat :=
  (t.seat i).bind (fun p =>
    (configLookup t.player_ids_to_configs p.id).bind (fun c => c.player_addr))

/-- Address injectivity between seats follows from injectivity of `addrAt`. -/
theorem addrInj_of_addrAt (t : Table)
    (h : ∀ i ∈ List.range 9, ∀ j ∈ List.range 9,
      addrAt t i = addrAt t j → (addrAt t i).isSome → i = j) :
    ∀ i ∈ List.range 9, ∀ j ∈ List.range 9, ∀ pi pj ci cj a,
      t.seat i = some pi → t.seat j = some pj →
      configLookup t.player_ids_to_configs pi.id = some ci →
      configLookup t.player_ids_to_configs pj.id = some cj →
      ci.player_addr = some a → cj.player_addr = some a → i = j := by
  intro i hi j hj pi pj ci cj a hsi hsj hci hcj hai haj
  exact h i hi j hj (by simp [addrAt, hsi, hsj, hci, hcj, hai, haj])
    (by simp [addrAt, hsi, hci, hai])

/-- Distinct seats of `c8Table` are reachable at distinct addresses. -/
theorem c8_addr_inj : ∀ i ∈ List.range 9, ∀ j ∈ List.range 9,
    ∀ pi pj ci cj a,
    c8Table.seat i = some pi → c8Table.seat j = some pj →
    configLookup c8Table.player_ids_to_configs pi.id = some ci →
    configLookup c8Table.player_ids_to_configs pj.id = some cj →
    ci.player_addr = some a → cj.player_addr = some a → i = j :=
  addrInj_of_addrAt c8Table (by decide)

/-- Witness for C8: the first delivered event at `c8Table` goes to address
41 and carries exactly player 1's own hole cards. -/
theorem hole_card_privacy_witness :
    c8Event ∈ c8Table.send_game_state none false ∧
    ∃ gs, c8Event.2 = Msg.game_state gs ∧
      gs.hole_cards =
        (if c8Player1.hole_cards.length == 2 then some c8Player1.hole_cards else none) :=
  ⟨by decide,
    (hole_card_privacy c8Table none false).2 c8_addr_inj c8Event (by decide)
      0 (by decide) c8Player1 (mkCfgA 1 41 "A") (by decide) (by decide) (by decide)⟩

/-! ## Seat stability under in-hand meta handling -/

/-- An occupied seat read back through the underlying list. -/
theorem seat_some_getElem (t : Table) (i : Nat) (p : Player) (h : t.seat i = some p) :
    t.players[i]? = some (some p) := by
  unfold Table.seat at h
  rw [List.getD_eq_getD_get?, List.get?_eq_getElem?] at h
  cases h2 : t.players[i]? with
  | none => rw [h2] at h; simp at h
  | some sp => rw [h2] at h; simp at h; rw [h]

/-- Reading a seat through `updateSeats`. -/
theorem updateSeats_seat (t : Table) (f : Player → Player) (i : Nat) :
    (t.updateSeats f).seat i = (t.seat i).map f := by
  unfold Table.updateSeats Table.seat
  rw [List.getD_eq_getD_get?, List.getD_eq_getD_get?]
  rw [List.get?_eq_getElem?, List.get?_eq_getElem?]
  simp only [List.getElem?_map]
  cases t.players[i]? <;> rfl

/-- Reading an untouched seat through `setSeat`. -/
theorem setSeat_seat_ne (t : Table) (j i : Nat) (x : Option Player) (h : j ≠ i) :
    (t.setSeat j x).seat i = t.seat i := by
  unfold Table.setSeat Table.seat
  rw [List.getD_eq_getD_get?, List.getD_eq_getD_get?, List.get?_set_ne x _ h]

/-- `add_player` never replaces an occupied seat. -/
theorem add_player_seat_preserved (t : Table) (cfg : PlayerConfig) (q : Player)
    (i : Nat) (p : Player) (h : t.seat i = some p) :
    ((t.add_player cfg q).1).seat i = some p := by
  unfold Table.add_player
  cases hfind : (List.range 9).find? (fun i =>
      match t.seat i with
      | some existing => existing.id == q.id
      | none => false) with
  | some k => exact h
  | none =>
    dsimp only
    by_cases hful : t.max_players ≤ (t.players.filterMap id).length
    · rw [if_pos hful]; exact h
    · rw [if_neg hful]
      cases hempty : (List.range 9).find? (fun i => (t.seat i).isNone) with
      | none => exact h
      | some j =>
        have hne : j ≠ i := by
          intro hji
          subst hji
          have := List.find?_some hempty
          rw [h] at this
          simp at this
        have : ((t.setSeat j (some q)).seat i) = some p := by
          rw [setSeat_seat_ne t j i (some q) hne]; exact h
        exact this

/-- `add_human` never replaces an occupied seat. -/
theorem add_human_seat_preserved (t : Table) (cfg : PlayerConfig) (pw : Option String)
    (i : Nat) (p : Player) (h : t.seat i = some p) :
    ((t.add_human cfg pw).1).seat i = some p := by
  unfold Table.add_human
  cases hp : t.password with
  | none =>
    cases pw <;> exact add_player_seat_preserved _ _ _ _ _ h
  | some gp =>
    cases pw with
    | none => exact h
    | some given =>
      dsimp only
      by_cases hne : gp ≠ given
      · rw [if_pos hne]; exact h
      · rw [if_neg hne]; exact add_player_seat_preserved _ _ _ _ _ h

/-- The `human_controlled` flag of an occupied seat, as observed by the
polling loop. -/
def seatFlagAt (w : World) (i : Nat) : Option Bool :=
  (w.table.seat i).map (fun p => p.human_controlled)

/-- One in-hand meta action never unseats a player nor changes whether they
are human-controlled. -/
theorem handleOneMeta_seatFlag (env : Env) (gh? : Option GameHand) (w : World)
    (m : MetaAction) (i : Nat) (b : Bool) (h : seatFlagAt w i = some b) :
    seatFlagAt (handleOneMeta env false gh? w m) i = some b := by
  obtain ⟨p, hp, hb⟩ : ∃ p, w.table.seat i = some p ∧ p.human_controlled = b := by
    unfold seatFlagAt at h
    cases hs : w.table.seat i with
    | none => rw [hs] at h; simp at h
    | some p => rw [hs] at h; simp at h; exact ⟨p, rfl, h⟩
  have hp0 := seat_some_getElem w.table i p hp
  cases m with
  | Chat id text =>
    unfold handleOneMeta
    cases hc : configLookup w.table.player_ids_to_configs id <;>
      simp [seatFlagAt, World.send, Table.seat, List.getD_eq_getD_get?,
        List.get?_eq_getElem?, hc, hp0, hb]
  | Join cfg pw =>
    unfold handleOneMeta
    cases hres : (w.table.add_human cfg pw) with
    | mk t2 res =>
      have hseat : t2.seat i = some p := by
        have h2 := add_human_seat_preserved w.table cfg pw i p hp
        rw [hres] at h2
        exact h2
      have hseat0 := seat_some_getElem t2 i p hseat
      cases res with
      | ok idx =>
        simp [seatFlagAt, World.send, Table.seat,
          List.getD_eq_getD_get?, List.get?_eq_getElem?, hres, hseat0, hb]
      | error e =>
        by_cases hhub : t2.hub_addr <;>
          simp [seatFlagAt, World.sendHub, Table.seat,
            List.getD_eq_getD_get?, List.get?_eq_getElem?, hres, hseat0, hb, hhub]
  | Leave id =>
    unfold handleOneMeta
    cases hc : configLookup w.table.player_ids_to_configs id <;>
      by_cases hhub : w.table.hub_addr <;>
      simp [seatFlagAt, World.send, World.sendHub, Table.seat, List.getD_eq_getD_get?,
        List.get?_eq_getElem?, hc, hp0, hb, hhub]
  | SetPlayerName id nm =>
    unfold handleOneMeta
    cases hc : configLookup w.table.player_ids_to_configs id <;>
      simp [seatFlagAt, World.send, Table.seat, List.getD_eq_getD_get?,
        List.get?_eq_getElem?, hc, hp0, hb]
  | SendPlayerName id =>
    unfold handleOneMeta
    cases hc : configLookup w.table.player_ids_to_configs id <;>
      simp [seatFlagAt, World.send, Table.seat, List.getD_eq_getD_get?,
        List.get?_eq_getElem?, hc, hp0, hb]
  | UpdateAddress id addr =>
    unfold handleOneMeta
    cases hc : configLookup w.table.player_ids_to_configs id <;>
      simp [seatFlagAt, World.send, Table.seat, List.getD_eq_getD_get?,
        List.get?_eq_getElem?, hc, hp0, hb]
  | TableInfo addr =>
    unfold handleOneMeta
    simp [seatFlagAt, World.send, Table.seat, List.getD_eq_getD_get?,
      List.get?_eq_getElem?, hp0, hb]
  | ImBack id =>
    unfold handleOneMeta
    cases hc : configLookup w.table.player_ids_to_configs id <;>
      simp [seatFlagAt, World.send, Table.seat, Table.updateSeats,
        List.getD_eq_getD_get?, List.get?_eq_getElem?, hc, hp0, hb] <;>
      by_cases hid : p.id = id <;> simp [hid, hb]
  | SitOut id =>
    unfold handleOneMeta
    simp [seatFlagAt, World.send, Table.seat, Table.updateSeats,
      List.getD_eq_getD_get?, List.get?_eq_getElem?, hp0, hb]
    by_cases hid : p.id = id <;> simp [hid, hb]
  | Admin id cmd =>
    unfold handleOneMeta
    simp [seatFlagAt, Table.seat, List.getD_eq_getD_get?, List.get?_eq_getElem?, hp0, hb]

/-- Draining meta actions in-hand preserves the seat flag. -/
theorem hmaDrain_seatFlag (env : Env) (gh? : Option GameHand) (i : Nat) (b : Bool) :
    ∀ n (w : World), seatFlagAt w i = some b →
      seatFlagAt (hmaDrain env false gh? n w) i = some b := by
  intro n
  induction n with
  | zero => intro w h; exact h
  | succ n ih =>
    intro w h
    unfold hmaDrain
    cases hq : w.meta_queue with
    | nil => exact h
    | cons m rest =>
      exact ih _ (handleOneMeta_seatFlag env gh? { w with meta_queue := rest } m i b h)

/-- In-hand meta handling preserves the seat flag. -/
theorem handle_meta_actions_seatFlag (env : Env) (gh? : Option GameHand) (w : World)
    (i : Nat) (b : Bool) (h : seatFlagAt w i = some b) :
    seatFlagAt (handle_meta_actions env false gh? w) i = some b := by
  unfold handle_meta_actions
  exact hmaDrain_seatFlag env gh? i b _ _ h

/-- Polling a player never changes the table. -/
theorem get_action_from_player_table (env : Env) (w : World) (p : Player) :
    (get_action_from_player env w p).1.table = w.table := by
  unfold get_action_from_player World.absorbMail
  by_cases hh : p.human_controlled <;> simp [hh]
  · split <;> rfl
  · split
    · rfl
    · split
      · rfl
      · split
        · split <;> rfl
        · rfl

/-- The seat flag only depends on the table. -/
theorem seatFlagAt_table_eq (w2 w1 : World) (i : Nat) (h : w2.table = w1.table) :
    seatFlagAt w2 i = seatFlagAt w1 i := by
  unfold seatFlagAt
  unfold Table.seat
  rw [h]

/-! ## C4 — the 45-attempt accounting of the polling loop -/

/-- Attempt accounting of the polling loop: starting from a seat whose
player is (and, through meta handling, stays) human iff `b`, every executed
loop body adds exactly one attempt when the player is human and none when it
is a bot, and the attempt counter never passes 45. -/
theorem gvaLoop_accounting (env : Env) (gh : GameHand) (index : Nat) (b : Bool) :
    ∀ fuel (w : World) (attempts iters noPending : Nat),
      seatFlagAt w index = some b →
      attempts ≤ 45 →
      ((b = true →
        (gvaLoop env gh index fuel w attempts iters noPending).attempts + iters =
          (gvaLoop env gh index fuel w attempts iters noPending).iters + attempts) ∧
       (b = false →
        (gvaLoop env gh index fuel w attempts iters noPending).attempts = attempts) ∧
       (gvaLoop env gh index fuel w attempts iters noPending).attempts ≤ 45) := by
  intro fuel
  induction fuel with
  | zero =>
    intro w attempts iters noPending hflag hle
    unfold gvaLoop
    by_cases h45 : 45 ≤ attempts
    · rw [if_pos h45]
      exact ⟨fun _ => Nat.add_comm attempts iters, fun _ => rfl, hle⟩
    · rw [if_neg h45]
      exact ⟨fun _ => Nat.add_comm attempts iters, fun _ => rfl, hle⟩
  | succ n ih =>
    intro w attempts iters noPending hflag hle
    unfold gvaLoop
    by_cases h45 : 45 ≤ attempts
    · rw [if_pos h45]
      exact ⟨fun _ => Nat.add_comm attempts iters, fun _ => rfl, hle⟩
    · rw [if_neg h45]
      have hlt : attempts < 45 := Nat.lt_of_not_le h45
      have hflag1 := handle_meta_actions_seatFlag env (some gh) w index b hflag
      obtain ⟨p, hp, hpb⟩ : ∃ p,
          (handle_meta_actions env false (some gh) w).table.seat index = some p ∧
            p.human_controlled = b := by
        unfold seatFlagAt at hflag1
        cases hs : (handle_meta_actions env false (some gh) w).table.seat index with
        | none => rw [hs] at hflag1; simp at hflag1
        | some q =>
          rw [hs] at hflag1
          simp at hflag1
          exact ⟨q, rfl, hflag1⟩
      dsimp only
      rw [hp]
      dsimp only
      set w1 := handle_meta_actions env false (some gh) w with hw1
      set attempts2 := if p.human_controlled = true then attempts + 1 else attempts with ha2
      have ha2le : attempts2 ≤ 45 := by
        rw [ha2]; split <;> omega
      have hAtrue : b = true → attempts2 = attempts + 1 := by
        intro hb1
        rw [hb1] at hpb
        rw [ha2, hpb]
        simp
      have hAfalse : b = false → attempts2 = attempts := by
        intro hb0
        rw [hb0] at hpb
        rw [ha2, hpb]
        simp
      have harith : ∀ (res : GvaLoopOut),
          res.attempts = attempts2 → res.iters = iters + 1 →
          ((b = true → res.attempts + iters = res.iters + attempts) ∧
           (b = false → res.attempts = attempts) ∧ res.attempts ≤ 45) := by
        intro res h1 h2
        refine ⟨fun hb1 => ?_, fun hb0 => ?_, ?_⟩
        · have hA := hAtrue hb1
          omega
        · have hA := hAfalse hb0
          omega
        · omega
      have hrec : ∀ (w2 : World) (nP : Nat), seatFlagAt w2 index = some b →
          ((b = true →
            (gvaLoop env gh index n w2 attempts2 (iters + 1) nP).attempts + iters =
              (gvaLoop env gh index n w2 attempts2 (iters + 1) nP).iters + attempts) ∧
           (b = false →
            (gvaLoop env gh index n w2 attempts2 (iters + 1) nP).attempts = attempts) ∧
           (gvaLoop env gh index n w2 attempts2 (iters + 1) nP).attempts ≤ 45) := by
        intro w2 nP hf
        have H := ih w2 attempts2 (iters + 1) nP hf ha2le
        refine ⟨fun hb1 => ?_, fun hb0 => ?_, H.2.2⟩
        · have h1 := H.1 hb1
          have hA := hAtrue hb1
          omega
        · have h0 := H.2.1 hb0
          have hA := hAfalse hb0
          omega
      by_cases hso : p.is_sitting_out = true
      · rw [if_pos hso]
        exact harith _ rfl rfl
      · rw [if_neg hso]
        by_cases hcm : (configLookup w1.table.player_ids_to_configs p.id).isNone = true
        · rw [if_pos hcm]
          exact harith _ rfl rfl
        · rw [if_neg hcm]
          rcases hga : get_action_from_player env w1 p with ⟨wb, polled⟩
          have htb : wb.table = w1.table := by
            have h := get_action_from_player_table env w1 p
            rw [hga] at h
            exact h
          have hflag2p : seatFlagAt wb index = some b := by
            rw [seatFlagAt_table_eq wb w1 index htb]
            exact hflag1
          have hflag2 : ∀ evs, seatFlagAt (wb.send evs) index = some b := by
            intro evs
            rw [seatFlagAt_table_eq (wb.send evs) wb index rfl]
            exact hflag2p
          dsimp only
          cases polled with
          | none =>
            dsimp only
            exact hrec _ _ hflag2p
          | some act =>
            cases act with
            | Fold =>
              dsimp only
              by_cases hcb : gh.current_bet ≤ (gh.contributionsFor gh.street).getD index 0
              · rw [if_pos hcb]
                exact harith _ rfl rfl
              · rw [if_neg hcb]
                exact harith _ rfl rfl
            | Check =>
              dsimp only
              by_cases hcb : (gh.contributionsFor gh.street).getD index 0 < gh.current_bet
              · rw [if_pos hcb]
                refine hrec _ _ ?_
                split
                · exact hflag2 _
                · exact hflag2p
              · rw [if_neg hcb]
                exact harith _ rfl rfl
            | Call =>
              dsimp only
              by_cases hcb : gh.current_bet ≤ (gh.contributionsFor gh.street).getD index 0
              · rw [if_pos hcb]
                exact hrec _ _ (hflag2 _)
              · rw [if_neg hcb]
                exact harith _ rfl rfl
            | Bet new_bet =>
              dsimp only
              by_cases h1c : gh.current_bet < (gh.contributionsFor gh.street).getD index 0
              · rw [if_pos h1c]
                exact hrec _ _ hflag2p
              · rw [if_neg h1c]
                by_cases h2c :
                    p.money + (gh.contributionsFor gh.street).getD index 0 < new_bet
                · rw [if_pos h2c]
                  exact hrec _ _ (hflag2 _)
                · rw [if_neg h2c]
                  by_cases h3c : new_bet ≤ gh.current_bet
                  · rw [if_pos h3c]
                    exact hrec _ _ (hflag2 _)
                  · rw [if_neg h3c]
                    exact harith _ rfl rfl
            | PostSmallBlind a =>
              exact harith _ (by rfl) (by rfl)
            | PostBigBlind a =>
              exact harith _ (by rfl) (by rfl)
            | SitOut =>
              exact harith _ (by rfl) (by rfl)

/-- The claim C4 as stated for humans: attempts would only be consumed by
polls that find no pending action, so after `get_and_validate_action` the
attempt counter would equal the no-pending-poll counter. -/
def c4ClaimStatement : Prop :=
  ∀ (env : Env) (gfuel : Nat) (w : World) (gh : GameHand) (index : Nat) (p : Player),
    w.table.seat index = some p →
    p.human_controlled = true →
    (get_and_validate_action env gfuel w gh index).attempts =
      (get_and_validate_action env gfuel w gh index).noPending

/-- The human seat for the C4 counterexample. -/
def c4Human : Player := mkHuman 1 1000

/-- An environment whose mailbox holds a pending `Call` from player 1 at
every tick. -/
def c4Env : Env := { zeroEnv with mailAt := fun _ => [(1, .Call)] }

/-- A flop hand facing a bet of 5, making a `Check` invalid. -/
def c4FlopGh : GameHand := { GameHand.default with street := .Flop, current_bet := 5 }

/-- A world seating the human of the C4 counterexample with a live config. -/
def c4HumanWorld : World :=
  mkWorld { Table.default with
    players := [some c4Human] ++ List.replicate 8 none
  , player_ids_to_configs := [(1, mkCfgA 1 11 "alice")] }

/-- C4 is false as stated: the very first poll of the loop finds the human's
pending (and valid) `Call` and still costs an attempt, so `attempts = 1`
while not a single poll found no pending action (`noPending = 0`). -/
theorem c4_counterexample : ¬ c4ClaimStatement := by
  intro h
  have h1 : (get_and_validate_action c4Env 2 c4HumanWorld c4FlopGh 0).attempts = 1 := by
    rfl
  have h0 : (get_and_validate_action c4Env 2 c4HumanWorld c4FlopGh 0).noPending = 0 := by
    rfl
  have hx := h c4Env 2 c4HumanWorld c4FlopGh 0 c4Human (by decide) rfl
  rw [h1, h0] at hx
  exact absurd hx (by decide)

/-- C4 (amended): in the polling case (non-preflop street, occupied seat),
every executed loop body of `get_and_validate_action` consumes exactly one of
the 45 attempts when the seat is human-controlled — whether or not a pending
action was found, and whether or not it was valid — while a computer-driven
seat consumes none, and the attempt counter never exceeds 45. -/
theorem gva_attempt_accounting (env : Env) (gfuel : Nat) (w : World) (gh : GameHand)
    (index : Nat) (p : Player)
    (hs : w.table.seat index = some p)
    (hnp : (gh.street == Street.Preflop) = false) :
    (p.human_controlled = true →
      (get_and_validate_action env gfuel w gh index).attempts =
        (get_and_validate_action env gfuel w gh index).iters) ∧
    (p.human_controlled = false →
      (get_and_validate_action env gfuel w gh index).attempts = 0) ∧
    (get_and_validate_action env gfuel w gh index).attempts ≤ 45 := by
  have hflag : ∀ evs, seatFlagAt (w.send evs) index = some p.human_controlled := by
    intro evs
    rw [seatFlagAt_table_eq (w.send evs) w index rfl]
    unfold seatFlagAt
    rw [hs]
    rfl
  have main : ∀ (evs : List (Nat × Msg)),
      ((p.human_controlled = true →
        (gvaLoop env gh index gfuel (w.send evs) 0 0 0).attempts =
          (gvaLoop env gh index gfuel (w.send evs) 0 0 0).iters) ∧
       (p.human_controlled = false →
        (gvaLoop env gh index gfuel (w.send evs) 0 0 0).attempts = 0) ∧
       (gvaLoop env gh index gfuel (w.send evs) 0 0 0).attempts ≤ 45) := by
    intro evs
    have H := gvaLoop_accounting env gh index p.human_controlled gfuel (w.send evs)
      0 0 0 (hflag evs) (by omega)
    refine ⟨fun hb => ?_, fun hb => ?_, H.2.2⟩
    · have h1 := H.1 hb
      omega
    · exact H.2.1 hb
  unfold get_and_validate_action
  rw [hs]
  dsimp only
  simp only [hnp, Bool.false_and, Bool.false_eq_true, if_false]
  split
  · exact main _
  · exact main _

/-- The computer-driven seat of the C4 witness. -/
def c4Bot : Player := { mkHuman 2 500 with human_controlled := false }

/-- A world seating only the C4 witness bot, with a live config. -/
def c4BotWorld : World :=
  mkWorld { Table.default with
    players := [some c4Bot] ++ List.replicate 8 none
  , player_ids_to_configs := [(2, mkCfgA 2 12 "cpu")] }

/-- Witness for the amended C4: a computer-driven seat on a flop consumes no
attempts at all. -/
theorem gva_attempt_accounting_witness :
    c4BotWorld.table.seat 0 = some c4Bot ∧
    (c4FlopGh.street == Street.Preflop) = false ∧
    (get_and_validate_action zeroEnv 1 c4BotWorld c4FlopGh 0).attempts = 0 :=
  ⟨by decide, by decide,
    (gva_attempt_accounting zeroEnv 1 c4BotWorld c4FlopGh 0 c4Bot
      (by decide) (by decide)).2.1 rfl⟩

/-! ## C3 — the no-human counter of the hand loop -/

/-- The claim C3 as stated: whenever `play` ends by the no-human limit,
three consecutive hands were begun with no human-controlled player seated. -/
def c3ClaimStatement : Prop :=
  ∀ (env : Env) (gfuel sfuel : Nat) (hand_limit : Option Nat) (fuel : Nat) (w : World),
    (Table.play env gfuel sfuel hand_limit fuel w).exitReason = ExitReason.nonHumanLimit →
    ∃ i < (Table.play env gfuel sfuel hand_limit fuel w).log.length,
      3 ≤ ((Table.play env gfuel sfuel hand_limit fuel w).log.drop i).length ∧
      ∀ e ∈ ((Table.play env gfuel sfuel hand_limit fuel w).log.drop i).take 3,
        e.humans = 0

/-- An environment where a human joins the table at tick 2 and leaves at
tick 5. -/
def c3Env : Env :=
  { zeroEnv with metaAt := fun t =>
      if t = 2 then [MetaAction.Join (mkCfgA 7 77 "visitor") none]
      else if t = 5 then [MetaAction.Leave 7]
      else [] }

/-- C3 is false as stated: with a human seated only for the third to fifth
hands of an otherwise empty table, the loop still ends by the no-human limit
— its counter is cumulative, never reset — although no three consecutive
begun hands were humanless (they saw 0, 0, 1, 1, 1, 0 humans). -/
theorem c3_counterexample : ¬ c3ClaimStatement := by
  intro h
  exact absurd (h c3Env 1 1 none 8 (mkWorld Table.default) (by decide)) (by decide)

/-- Unfolding equation of `playLoop` at exhausted fuel. -/
theorem playLoop_zero (env : Env) (gfuel sfuel : Nat) (hand_limit : Option Nat)
    (nhh : Nat) (w : World) (log : List PlayEntry) :
    playLoop env gfuel sfuel hand_limit 0 nhh w log =
      { w := w, log := log, exitReason := .fuelOut } := rfl

/-- Unfolding equation of `playLoop` at remaining fuel. -/
theorem playLoop_succ (env : Env) (gfuel sfuel : Nat) (hand_limit : Option Nat)
    (fuel nhh : Nat) (w : World) (log : List PlayEntry) :
    playLoop env gfuel sfuel hand_limit (fuel + 1) nhh w log =
      (let w := handle_meta_actions env true none w
       let w := handle_player_heart_beats env w
       let w := sweepConfigless w
       if (match hand_limit with
           | some limit => decide (limit < w.table.hand_num)
           | none => false) then
         { w := w, log := log, exitReason := .limitReached }
       else
         let num_human := ((w.table.players.filterMap id).filter
           (fun p => p.human_controlled)).length
         let non_human_hands := if num_human == 0 then nhh + 1 else nhh
         if 3 < non_human_hands then
           { w := w, log := log, exitReason := .nonHumanLimit }
         else
           let entry : PlayEntry :=
             { hand_num := w.table.hand_num, humans := num_human, played := false }
           let out := play_one_hand env gfuel sfuel w
           let w := out.w
           let entry := { entry with played := out.played }
           if out.played then
             let w := { w with table := { w.table with hand_num := w.table.hand_num + 1 } }
             match w.table.find_next_button with
             | some b =>
               playLoop env gfuel sfuel hand_limit fuel non_human_hands
                 { w with table := { w.table with button_idx := b } } (log ++ [entry])
             | none =>
               { w := { w with fatal := true }, log := log ++ [entry],
                 exitReason := .buttonFail }
           else
             playLoop env gfuel sfuel hand_limit fuel non_human_hands w
               (log ++ [entry])) := rfl

/-- The loop invariant behind the amended C3: the `non_human_hands` counter
equals the number of logged humanless hands, so at most 3 humanless hands are
ever begun and a no-human exit happens with exactly 3 of them in the log. -/
theorem playLoop_nonhuman_count (env : Env) (gfuel sfuel : Nat) (hl : Option Nat) :
    ∀ fuel nhh (w : World) (log : List PlayEntry),
      nhh = log.countP (fun e => e.humans == 0) →
      nhh ≤ 3 →
      ((playLoop env gfuel sfuel hl fuel nhh w log).log.countP
          (fun e => e.humans == 0) ≤ 3 ∧
       ((playLoop env gfuel sfuel hl fuel nhh w log).exitReason = ExitReason.nonHumanLimit →
        (playLoop env gfuel sfuel hl fuel nhh w log).log.countP
          (fun e => e.humans == 0) = 3)) := by
  intro fuel
  induction fuel with
  | zero =>
    intro nhh w log hinv hle
    rw [playLoop_zero]
    exact ⟨by rw [← hinv]; exact hle, fun h => nomatch h⟩
  | succ n ih =>
    intro nhh w log hinv hle
    rw [playLoop_succ]
    dsimp only
    split
    · exact ⟨by rw [← hinv]; exact hle, fun h => nomatch h⟩
    · generalize hNH : ((((sweepConfigless (handle_player_heart_beats env
        (handle_meta_actions env true none w))).table.players.filterMap id).filter
        (fun p => p.human_controlled)).length) = NH
      generalize hN2 : (if (NH == 0) = true then nhh + 1 else nhh) = nhh2
      split
      · rename_i h3
        have hn3 : nhh = 3 := by
          rw [← hN2] at h3
          revert h3
          split <;> omega
        refine ⟨by rw [← hinv]; omega, fun _ => by rw [← hinv]; omega⟩
      · rename_i h3
        have h32 : nhh2 ≤ 3 := Nat.le_of_not_lt h3
        generalize hOUT : play_one_hand env gfuel sfuel (sweepConfigless
          (handle_player_heart_beats env (handle_meta_actions env true none w))) = OUT
        have hinv2 : nhh2 =
            (log ++ [PlayEntry.mk (sweepConfigless (handle_player_heart_beats env
              (handle_meta_actions env true none w))).table.hand_num NH
              OUT.played]).countP (fun e => e.humans == 0) := by
          rw [List.countP_append, List.countP_cons, List.countP_nil, ← hinv, ← hN2]
          dsimp only
          by_cases hz : (NH == 0) = true
          · rw [if_pos hz, if_pos hz]
          · rw [if_neg hz, if_neg hz]
            omega
        split
        · split
          · exact ih nhh2 _ _ hinv2 h32
          · exact ⟨by rw [← hinv2]; exact h32, fun h => nomatch h⟩
        · exact ih nhh2 _ _ hinv2 h32

/-- C3 (amended): the `non_human_hands` counter of `play` is cumulative and
never reset, so across a whole game at most 3 hands are ever begun with no
human-controlled player seated — not necessarily consecutive ones — and when
the loop exits by the no-human limit, exactly 3 humanless hands had been
begun; the exit is triggered by the fourth humanless loop iteration, however
many human-attended hands were interleaved. -/
theorem play_nonhuman_hand_count (env : Env) (gfuel sfuel : Nat)
    (hand_limit : Option Nat) (fuel : Nat) (w : World) :
    (Table.play env gfuel sfuel hand_limit fuel w).log.countP
      (fun e => e.humans == 0) ≤ 3 ∧
    ((Table.play env gfuel sfuel hand_limit fuel w).exitReason =
        ExitReason.nonHumanLimit →
     (Table.play env gfuel sfuel hand_limit fuel w).log.countP
       (fun e => e.humans == 0) = 3) := by
  have H := playLoop_nonhuman_count env gfuel sfuel hand_limit fuel 0 w [] rfl
    (by omega)
  unfold Table.play
  dsimp only
  cases hr : (playLoop env gfuel sfuel hand_limit fuel 0 w []).exitReason with
  | limitReached =>
    dsimp only
    exact ⟨H.1, fun h => nomatch h⟩
  | nonHumanLimit =>
    dsimp only
    exact ⟨H.1, fun _ => H.2 hr⟩
  | buttonFail =>
    dsimp only
    exact ⟨H.1, fun h => nomatch hr.symm.trans h⟩
  | fuelOut =>
    dsimp only
    exact ⟨H.1, fun h => nomatch hr.symm.trans h⟩


/-- Witness for the amended C3 at the concrete join-and-leave run: the loop
ends by the no-human limit having begun exactly 3 humanless hands. -/
theorem play_nonhuman_hand_count_witness :
    (Table.play c3Env 1 1 none 8 (mkWorld Table.default)).exitReason =
      ExitReason.nonHumanLimit ∧
    (Table.play c3Env 1 1 none 8 (mkWorld Table.default)).log.countP
      (fun e => e.humans == 0) = 3 :=
  ⟨by decide,
    (play_nonhuman_hand_count c3Env 1 1 none 8 (mkWorld Table.default)).2 (by decide)⟩

/-! ## C9 — no money subtraction underflows during a street -/

/-- Is the action one of the two forced-blind postings?  Client sessions can
only submit `Fold`, `Check`, `Call`, `Bet` and `SitOut` (the `session.rs`
parser), so mailboxes never carry blinds. -/
def isBlind : PlayerAction → Bool
  | .PostSmallBlind _ => true
  | .PostBigBlind _ => true
  | _ => false

/-- A mailbox write preserves blind-freeness. -/
theorem mailInsert_clean (mb : List (Nat × PlayerAction)) (id : Nat) (a : PlayerAction)
    (h : ∀ e ∈ mb, isBlind e.2 = false) (ha : isBlind a = false) :
    ∀ e ∈ mailInsert mb id a, isBlind e.2 = false := by
  intro e he
  unfold mailInsert at he
  rcases List.mem_cons.mp he with rfl | hmem
  · exact ha
  · exact h e (List.mem_of_mem_filter hmem)

/-- Folding blind-free writes over a blind-free mailbox stays blind-free. -/
theorem foldl_mailInsert_clean :
    ∀ (l : List (Nat × PlayerAction)) (mb : List (Nat × PlayerAction)),
      (∀ e ∈ l, isBlind e.2 = false) → (∀ e ∈ mb, isBlind e.2 = false) →
      ∀ e ∈ l.foldl (fun mb e => mailInsert mb e.1 e.2) mb, isBlind e.2 = false := by
  intro l
  induction l with
  | nil => intro mb _ h; exact h
  | cons x l ih =>
    intro mb hl h
    rw [List.foldl_cons]
    exact ih _ (fun e he => hl e (List.mem_cons_of_mem x he))
      (mailInsert_clean _ _ _ h (hl x (List.mem_cons_self x l)))

/-- Taking the action lock keeps the mailbox blind-free when the environment
only ever submits session-representable actions. -/
theorem absorbMail_clean (env : Env) (w : World)
    (henv : ∀ t, ∀ e ∈ env.mailAt t, isBlind e.2 = false)
    (hw : ∀ e ∈ w.mailbox, isBlind e.2 = false) :
    ∀ e ∈ (w.absorbMail env).mailbox, isBlind e.2 = false := by
  unfold World.absorbMail
  exact foldl_mailInsert_clean _ _ (fun e he => henv w.tick e he) hw

/-- One in-hand meta action never writes the player-action mailbox. -/
theorem handleOneMeta_mailbox (env : Env) (gh? : Option GameHand) (w : World)
    (m : MetaAction) :
    (handleOneMeta env false gh? w m).mailbox = w.mailbox := by
  unfold handleOneMeta
  cases m <;> dsimp only
  case Admin id cmd => rfl
  all_goals
    (repeat' split) <;> simp [World.send, World.sendHub] <;> (repeat' split) <;> rfl

/-- Draining meta actions in-hand never writes the mailbox. -/
theorem hmaDrain_mailbox (env : Env) (gh? : Option GameHand) :
    ∀ n (w : World), (hmaDrain env false gh? n w).mailbox = w.mailbox := by
  intro n
  induction n with
  | zero => intro w; rfl
  | succ n ih =>
    intro w
    unfold hmaDrain
    cases hq : w.meta_queue with
    | nil => rfl
    | cons m rest =>
      rw [ih, handleOneMeta_mailbox]

/-- In-hand meta handling never writes the mailbox. -/
theorem handle_meta_actions_mailbox (env : Env) (gh? : Option GameHand) (w : World) :
    (handle_meta_actions env false gh? w).mailbox = w.mailbox := by
  unfold handle_meta_actions
  rw [hmaDrain_mailbox]
  rfl

/-- Mailbox preservation lifts through a fold over seat indices. -/
theorem foldl_fst_mailbox (f : (World × Nat × Nat) → Nat → (World × Nat × Nat))
    (hf : ∀ acc j, ((f acc j).1).mailbox = acc.1.mailbox) :
    ∀ (l : List Nat) (acc : World × Nat × Nat),
      ((l.foldl f acc).1).mailbox = acc.1.mailbox := by
  intro l
  induction l with
  | nil => intro acc; rfl
  | cons a l ih => intro acc; rw [List.foldl_cons, ih, hf]

/-- The configless-seat sweep never writes the mailbox. -/
theorem sweepSeats_mailbox (w : World) (na ni : Nat) :
    (sweepSeats w na ni).1.mailbox = w.mailbox := by
  unfold sweepSeats
  refine foldl_fst_mailbox _ (fun acc j => ?_) _ _
  dsimp only
  split
  · split <;> rfl
  · rfl

/-- Polling a player yields only session-representable (never blind) actions
and keeps the mailbox blind-free. -/
theorem get_action_from_player_clean (env : Env) (w : World) (p : Player)
    (henv : ∀ t, ∀ e ∈ env.mailAt t, isBlind e.2 = false)
    (hw : ∀ e ∈ w.mailbox, isBlind e.2 = false) :
    (∀ e ∈ (get_action_from_player env w p).1.mailbox, isBlind e.2 = false) ∧
    (∀ a, (get_action_from_player env w p).2 = some a → isBlind a = false) := by
  unfold get_action_from_player
  by_cases hh : p.human_controlled = true
  · rw [if_pos hh]
    dsimp only
    have habs := absorbMail_clean env w henv hw
    cases hf : (w.absorbMail env).mailbox.find? (fun e => e.1 == p.id) with
    | none =>
      dsimp only
      exact ⟨habs, fun a h => nomatch h⟩
    | some e =>
      have he : e ∈ (w.absorbMail env).mailbox := List.mem_of_find?_eq_some hf
      dsimp only
      refine ⟨fun x hx => habs x (List.mem_of_mem_filter hx), fun a h => ?_⟩
      cases h
      exact habs e he
  · rw [if_neg hh]
    dsimp only
    have hw2 : ∀ e ∈ ({ w with tick := w.tick + 1 } : World).mailbox, isBlind e.2 = false := hw
    split
    · exact ⟨hw2, fun a h => by cases h; rfl⟩
    · split
      · exact ⟨hw2, fun a h => by cases h; rfl⟩
      · split
        · split
          · exact ⟨hw2, fun a h => by cases h; rfl⟩
          · exact ⟨hw2, fun a h => by cases h; rfl⟩
        · exact ⟨hw2, fun a h => by cases h; rfl⟩

/-- The polling loop only ever returns session-representable actions, keeps
the mailbox blind-free, and any `Bet` it returns was validated against the
acting seat's money plus street contribution. -/
theorem gvaLoop_clean (env : Env) (gh : GameHand) (index : Nat)
    (henv : ∀ t, ∀ e ∈ env.mailAt t, isBlind e.2 = false) :
    ∀ fuel (w : World) (attempts iters noPending : Nat),
      (∀ e ∈ w.mailbox, isBlind e.2 = false) →
      ((∀ e ∈ (gvaLoop env gh index fuel w attempts iters noPending).w.mailbox,
          isBlind e.2 = false) ∧
       (∀ a, (gvaLoop env gh index fuel w attempts iters noPending).actOpt = some a →
          isBlind a = false) ∧
       (∀ v, (gvaLoop env gh index fuel w attempts iters noPending).actOpt =
            some (.Bet v) →
          ∃ p, (gvaLoop env gh index fuel w attempts iters noPending).w.table.seat
              index = some p ∧
            v ≤ p.money + (gh.contributionsFor gh.street).getD index 0)) := by
  intro fuel
  induction fuel with
  | zero =>
    intro w attempts iters noPending hcl
    unfold gvaLoop
    by_cases h45 : 45 ≤ attempts
    · rw [if_pos h45]
      refine ⟨hcl, fun a h => ?_, fun v h => ?_⟩ <;> simp at h
    · rw [if_neg h45]
      refine ⟨hcl, fun a h => ?_, fun v h => ?_⟩ <;> simp at h
  | succ n ih =>
    intro w attempts iters noPending hcl
    unfold gvaLoop
    by_cases h45 : 45 ≤ attempts
    · rw [if_pos h45]
      refine ⟨hcl, fun a h => ?_, fun v h => ?_⟩ <;> simp at h
    · rw [if_neg h45]
      dsimp only
      set w1 := handle_meta_actions env false (some gh) w with hw1
      have hcl1 : ∀ e ∈ w1.mailbox, isBlind e.2 = false := by
        rw [hw1, handle_meta_actions_mailbox]
        exact hcl
      cases hs : w1.table.seat index with
      | none =>
        dsimp only
        refine ⟨hcl1, fun a h => ?_, fun v h => ?_⟩ <;> simp at h
      | some p =>
        dsimp only
        by_cases hso : p.is_sitting_out = true
        · rw [if_pos hso]
          exact ⟨hcl1, fun a h => by cases h; rfl, fun v h => by simp at h⟩
        · rw [if_neg hso]
          by_cases hcm : (configLookup w1.table.player_ids_to_configs p.id).isNone = true
          · rw [if_pos hcm]
            exact ⟨hcl1, fun a h => by cases h; rfl, fun v h => by simp at h⟩
          · rw [if_neg hcm]
            rcases hga : get_action_from_player env w1 p with ⟨wb, polled⟩
            have htb : wb.table = w1.table := by
              have h := get_action_from_player_table env w1 p
              rw [hga] at h
              exact h
            have hgac := get_action_from_player_clean env w1 p henv hcl1
            rw [hga] at hgac
            dsimp only at hgac
            have hwb : ∀ e ∈ wb.mailbox, isBlind e.2 = false := hgac.1
            dsimp only
            cases polled with
            | none => exact ih _ _ _ _ hwb
            | some act =>
              cases act with
              | Fold =>
                dsimp only
                by_cases hcb : gh.current_bet ≤ (gh.contributionsFor gh.street).getD index 0
                · rw [if_pos hcb]
                  refine ⟨?_, fun a h => by cases h; rfl, fun v h => by simp at h⟩
                  intro e he
                  revert he
                  split <;> exact hwb e
                · rw [if_neg hcb]
                  exact ⟨hwb, fun a h => by cases h; rfl, fun v h => by simp at h⟩
              | Check =>
                dsimp only
                by_cases hcb : (gh.contributionsFor gh.street).getD index 0 < gh.current_bet
                · rw [if_pos hcb]
                  refine ih _ _ _ _ ?_
                  intro e he
                  revert he
                  split <;> exact hwb e
                · rw [if_neg hcb]
                  exact ⟨hwb, fun a h => by cases h; rfl, fun v h => by simp at h⟩
              | Call =>
                dsimp only
                by_cases hcb : gh.current_bet ≤ (gh.contributionsFor gh.street).getD index 0
                · rw [if_pos hcb]
                  exact ih _ _ _ _ hwb
                · rw [if_neg hcb]
                  exact ⟨hwb, fun a h => by cases h; rfl, fun v h => by simp at h⟩
              | Bet new_bet =>
                dsimp only
                by_cases h1c : gh.current_bet < (gh.contributionsFor gh.street).getD index 0
                · rw [if_pos h1c]
                  exact ih _ _ _ _ hwb
                · rw [if_neg h1c]
                  by_cases h2c :
                      p.money + (gh.contributionsFor gh.street).getD index 0 < new_bet
                  · rw [if_pos h2c]
                    exact ih _ _ _ _ hwb
                  · rw [if_neg h2c]
                    by_cases h3c : new_bet ≤ gh.current_bet
                    · rw [if_pos h3c]
                      exact ih _ _ _ _ hwb
                    · rw [if_neg h3c]
                      refine ⟨hwb, fun a h => by cases h; rfl, fun v h => ?_⟩
                      cases h
                      refine ⟨p, ?_, by omega⟩
                      rw [htb]
                      exact hs
              | PostSmallBlind a =>
                exact absurd (hgac.2 _ rfl) (by simp [isBlind])
              | PostBigBlind a =>
                exact absurd (hgac.2 _ rfl) (by simp [isBlind])
              | SitOut =>
                exact ⟨hwb, fun a h => by cases h; rfl, fun v h => by simp at h⟩


/-- `get_and_validate_action` keeps the mailbox blind-free, and every
money-subtracting action it returns is bounded by the acting seat's stack:
injected blinds are clamped with `min` to the seat's money, and a returned
`Bet` passed the loop's validation against money plus street contribution. -/
theorem gva_act_safe (env : Env) (gfuel : Nat) (w : World) (gh : GameHand) (index : Nat)
    (henv : ∀ t, ∀ e ∈ env.mailAt t, isBlind e.2 = false)
    (hw : ∀ e ∈ w.mailbox, isBlind e.2 = false) :
    ((∀ e ∈ (get_and_validate_action env gfuel w gh index).w.mailbox,
        isBlind e.2 = false) ∧
     (∀ v, (get_and_validate_action env gfuel w gh index).act = .PostSmallBlind v →
       ∃ p, (get_and_validate_action env gfuel w gh index).w.table.seat index = some p ∧
         v ≤ p.money) ∧
     (∀ v, (get_and_validate_action env gfuel w gh index).act = .PostBigBlind v →
       ∃ p, (get_and_validate_action env gfuel w gh index).w.table.seat index = some p ∧
         v ≤ p.money) ∧
     (∀ v, (get_and_validate_action env gfuel w gh index).act = .Bet v →
       ∃ p, (get_and_validate_action env gfuel w gh index).w.table.seat index = some p ∧
         v ≤ p.money + (gh.contributionsFor gh.street).getD index 0)) := by
  unfold get_and_validate_action
  cases hs : w.table.seat index with
  | none =>
    dsimp only
    refine ⟨hw, fun v h => ?_, fun v h => ?_, fun v h => ?_⟩ <;> simp at h
  | some player =>
    dsimp only
    by_cases hb1 : (gh.street == Street.Preflop && gh.current_bet == 0) = true
    · rw [if_pos hb1]
      refine ⟨hw, fun v h => ?_, fun v h => ?_, fun v h => ?_⟩
      · dsimp only at h
        cases h
        exact ⟨player, hs, Nat.min_le_right _ _⟩
      · simp at h
      · simp at h
    · rw [if_neg hb1]
      by_cases hb2 :
          (gh.street == Street.Preflop && gh.current_bet == w.table.small_blind) = true
      · rw [if_pos hb2]
        refine ⟨hw, fun v h => ?_, fun v h => ?_, fun v h => ?_⟩
        · simp at h
        · dsimp only at h
          cases h
          exact ⟨player, hs, Nat.min_le_right _ _⟩
        · simp at h
      · rw [if_neg hb2]
        generalize hwp : w.send
            (send_specific_message
              (Msg.prompt
                (if (gh.contributionsFor gh.street).getD index 0 < gh.current_bet then
                  toString "Enter action (" ++
                    toString (gh.current_bet -
                      (gh.contributionsFor gh.street).getD index 0) ++
                    toString " to call): "
                else toString "Enter action (current bet = " ++
                  toString gh.current_bet ++ toString "): ")
                gh.current_bet)
              player.id w.table.player_ids_to_configs) = wp
        have hclwp : ∀ e ∈ wp.mailbox, isBlind e.2 = false := by
          rw [← hwp]
          exact fun e he => hw e he
        split
        · rename_i a heq
          have hloop := gvaLoop_clean env gh index henv gfuel wp 0 0 0 hclwp
          rw [heq] at hloop
          refine ⟨?_, fun v h => ?_, fun v h => ?_, fun v h => ?_⟩
          · intro e he
            revert he
            dsimp only
            split <;> exact hloop.1 e
          · dsimp only at h
            have hblind := hloop.2.1 a rfl
            rw [h] at hblind
            exact absurd hblind (by simp [isBlind])
          · dsimp only at h
            have hblind := hloop.2.1 a rfl
            rw [h] at hblind
            exact absurd hblind (by simp [isBlind])
          · dsimp only at h
            obtain ⟨p, hp, hple⟩ := hloop.2.2 v (by rw [h])
            refine ⟨p, ?_, hple⟩
            dsimp only
            split <;> exact hp
        · rename_i heq
          have hloop := gvaLoop_clean env gh index henv gfuel wp 0 0 0 hclwp
          rw [heq] at hloop
          refine ⟨?_, fun v h => ?_, fun v h => ?_, fun v h => ?_⟩
          · exact hloop.1
          · simp at h
          · simp at h
          · simp at h


section

attribute [local irreducible] streetStep

/-- Unfolding equation of `streetLoop` at exhausted fuel. -/
theorem streetLoop_zero (env : Env) (gfuel starting_idx k num_active num_all_in
    num_settled : Nat) (w : World) (gh : GameHand) (debits : List (Nat × Nat)) :
    streetLoop env gfuel starting_idx 0 k num_active num_all_in num_settled w gh
        debits =
      { w := { w with fatal := true }, gh := gh, hand_over := false,
        debits := debits } := rfl

/-- Unfolding equation of `streetLoop` at remaining fuel. -/
theorem streetLoop_succ (env : Env) (gfuel starting_idx sfuel k num_active num_all_in
    num_settled : Nat) (w : World) (gh : GameHand) (debits : List (Nat × Nat)) :
    streetLoop env gfuel starting_idx (sfuel + 1) k num_active num_all_in num_settled
        w gh debits =
      (match streetStep env gfuel starting_idx k num_active num_all_in num_settled
          w gh debits with
       | .done out => out
       | .next k2 na2 ni2 ns2 w2 gh2 debits2 =>
         streetLoop env gfuel starting_idx sfuel k2 na2 ni2 ns2 w2 gh2 debits2) := rfl

end

/-- One acting turn of `play_street` keeps the mailbox blind-free and only
records debits bounded by the debited player's money at the time: blinds are
clamped to the stack, calls are capped at the stack, and bets were validated
against money plus street contribution. -/
theorem streetStep_spec (env : Env) (gfuel starting_idx k na ni ns : Nat) (w : World)
    (gh : GameHand) (debits : List (Nat × Nat))
    (henv : ∀ t, ∀ e ∈ env.mailAt t, isBlind e.2 = false)
    (hcl : ∀ e ∈ w.mailbox, isBlind e.2 = false)
    (hd : ∀ d ∈ debits, d.2 ≤ d.1) :
    (∀ out, streetStep env gfuel starting_idx k na ni ns w gh debits = .done out →
      ∀ d ∈ out.debits, d.2 ≤ d.1) ∧
    (∀ k2 na2 ni2 ns2 (w2 : World) (gh2 : GameHand) (debits2 : List (Nat × Nat)),
      streetStep env gfuel starting_idx k na ni ns w gh debits =
        .next k2 na2 ni2 ns2 w2 gh2 debits2 →
      (∀ e ∈ w2.mailbox, isBlind e.2 = false) ∧ (∀ d ∈ debits2, d.2 ≤ d.1)) := by
  unfold streetStep
  have hcl1 : ∀ e ∈ (handle_meta_actions env false (some gh) w).mailbox,
      isBlind e.2 = false := by
    rw [handle_meta_actions_mailbox]
    exact hcl
  rcases hsw : sweepSeats (handle_meta_actions env false (some gh) w) na ni with
    ⟨w2, na2, ni2⟩
  have hclw2 : ∀ e ∈ w2.mailbox, isBlind e.2 = false := by
    have h := sweepSeats_mailbox (handle_meta_actions env false (some gh) w) na ni
    rw [hsw] at h
    intro e he
    refine hcl1 e ?_
    rw [← h]
    exact he
  dsimp only
  rw [hsw]
  dsimp only
  by_cases h1 : (na2 == 1) = true
  · rw [if_pos h1]
    refine ⟨fun out h => ?_, fun k2 na3 ni3 ns3 w3 gh3 debits3 h => (nomatch h)⟩
    cases h
    exact hd
  · rw [if_neg h1]
    by_cases h2 : (ns + ni2 == na2) = true
    · rw [if_pos h2]
      refine ⟨fun out h => ?_, fun k2 na3 ni3 ns3 w3 gh3 debits3 h => (nomatch h)⟩
      cases h
      exact hd
    · rw [if_neg h2]
      set i := seatOrderAt starting_idx k with hi
      cases hseat : w2.table.seat i with
      | none =>
        dsimp only
        refine ⟨fun out h => (nomatch h), fun k2 na3 ni3 ns3 w3 gh3 debits3 h => ?_⟩
        cases h
        exact ⟨hclw2, hd⟩
      | some p =>
        dsimp only
        by_cases hskip : (!(p.is_active && decide (0 < p.money))) = true
        · rw [if_pos hskip]
          refine ⟨fun out h => (nomatch h), fun k2 na3 ni3 ns3 w3 gh3 debits3 h => ?_⟩
          cases h
          exact ⟨hclw2, hd⟩
        · rw [if_neg hskip]
          have hsafe := gva_act_safe env gfuel
            (w2.send (w2.table.send_game_state
              (some { gh with index_to_act := some i }) false))
            { gh with index_to_act := some i } i henv (fun e he => hclw2 e he)
          set out := get_and_validate_action env gfuel
            (w2.send (w2.table.send_game_state
              (some { gh with index_to_act := some i }) false))
            { gh with index_to_act := some i } i with hout
          cases hs2 : out.w.table.seat i with
          | none =>
            dsimp only
            refine ⟨fun o h => ?_, fun k2 na3 ni3 ns3 w3 gh3 debits3 h => (nomatch h)⟩
            cases h
            exact hd
          | some q =>
            dsimp only
            cases hact : out.act with
            | Fold =>
              dsimp only [applyAction]
              refine ⟨fun o h => (nomatch h),
                fun k2 na3 ni3 ns3 w3 gh3 debits3 h => ?_⟩
              cases h
              refine ⟨fun e he => hsafe.1 e he, fun d hdm => ?_⟩
              rcases List.mem_append.mp hdm with hmem | hmem
              · exact hd d hmem
              · exact absurd hmem (by simp)
            | SitOut =>
              dsimp only [applyAction]
              refine ⟨fun o h => (nomatch h),
                fun k2 na3 ni3 ns3 w3 gh3 debits3 h => ?_⟩
              cases h
              refine ⟨fun e he => hsafe.1 e he, fun d hdm => ?_⟩
              rcases List.mem_append.mp hdm with hmem | hmem
              · exact hd d hmem
              · exact absurd hmem (by simp)
            | Check =>
              dsimp only [applyAction]
              refine ⟨fun o h => (nomatch h),
                fun k2 na3 ni3 ns3 w3 gh3 debits3 h => ?_⟩
              cases h
              refine ⟨fun e he => hsafe.1 e he, fun d hdm => ?_⟩
              rcases List.mem_append.mp hdm with hmem | hmem
              · exact hd d hmem
              · exact absurd hmem (by simp)
            | PostSmallBlind amount =>
              dsimp only [applyAction]
              obtain ⟨p', hp', hble⟩ := hsafe.2.1 amount hact
              rw [hs2] at hp'
              cases hp'
              refine ⟨fun o h => (nomatch h),
                fun k2 na3 ni3 ns3 w3 gh3 debits3 h => ?_⟩
              cases h
              refine ⟨fun e he => hsafe.1 e he, fun d hdm => ?_⟩
              rcases List.mem_append.mp hdm with hmem | hmem
              · exact hd d hmem
              · rcases List.mem_singleton.mp hmem with rfl
                exact hble
            | PostBigBlind amount =>
              dsimp only [applyAction]
              obtain ⟨p', hp', hble⟩ := hsafe.2.2.1 amount hact
              rw [hs2] at hp'
              cases hp'
              refine ⟨fun o h => (nomatch h),
                fun k2 na3 ni3 ns3 w3 gh3 debits3 h => ?_⟩
              cases h
              refine ⟨fun e he => hsafe.1 e he, fun d hdm => ?_⟩
              rcases List.mem_append.mp hdm with hmem | hmem
              · exact hd d hmem
              · rcases List.mem_singleton.mp hmem with rfl
                exact hble
            | Call =>
              dsimp only [applyAction]
              split
              · refine ⟨fun o h => (nomatch h),
                  fun k2 na3 ni3 ns3 w3 gh3 debits3 h => ?_⟩
                cases h
                refine ⟨fun e he => hsafe.1 e he, fun d hdm => ?_⟩
                rcases List.mem_append.mp hdm with hmem | hmem
                · exact hd d hmem
                · rcases List.mem_singleton.mp hmem with rfl
                  exact Nat.le_refl _
              · rename_i hlt
                refine ⟨fun o h => (nomatch h),
                  fun k2 na3 ni3 ns3 w3 gh3 debits3 h => ?_⟩
                cases h
                refine ⟨fun e he => hsafe.1 e he, fun d hdm => ?_⟩
                rcases List.mem_append.mp hdm with hmem | hmem
                · exact hd d hmem
                · rcases List.mem_singleton.mp hmem with rfl
                  omega
            | Bet v =>
              dsimp only [applyAction]
              obtain ⟨p', hp', hble⟩ := hsafe.2.2.2 v hact
              rw [hs2] at hp'
              cases hp'
              refine ⟨fun o h => (nomatch h),
                fun k2 na3 ni3 ns3 w3 gh3 debits3 h => ?_⟩
              cases h
              refine ⟨fun e he => hsafe.1 e he, fun d hdm => ?_⟩
              rcases List.mem_append.mp hdm with hmem | hmem
              · exact hd d hmem
              · rcases List.mem_singleton.mp hmem with rfl
                dsimp only
                dsimp only at hble
                omega

/-- The acting loop only records debits bounded by the debited player's
money at the time of the debit. -/
theorem streetLoop_no_underflow (env : Env) (gfuel starting_idx : Nat)
    (henv : ∀ t, ∀ e ∈ env.mailAt t, isBlind e.2 = false) :
    ∀ sfuel k na ni ns (w : World) (gh : GameHand) (debits : List (Nat × Nat)),
      (∀ e ∈ w.mailbox, isBlind e.2 = false) →
      (∀ d ∈ debits, d.2 ≤ d.1) →
      ∀ d ∈ (streetLoop env gfuel starting_idx sfuel k na ni ns w gh debits).debits,
        d.2 ≤ d.1 := by
  intro sfuel
  induction sfuel with
  | zero =>
    intro k na ni ns w gh debits hcl hd
    rw [streetLoop_zero]
    exact hd
  | succ n ih =>
    intro k na ni ns w gh debits hcl hd
    rw [streetLoop_succ]
    have hspec := streetStep_spec env gfuel starting_idx k na ni ns w gh debits
      henv hcl hd
    cases hstep : streetStep env gfuel starting_idx k na ni ns w gh debits with
    | done out =>
      dsimp only
      exact hspec.1 out hstep
    | next k2 na2 ni2 ns2 w2 gh2 debits2 =>
      dsimp only
      obtain ⟨hcl2, hd2⟩ := hspec.2 k2 na2 ni2 ns2 w2 gh2 debits2 hstep
      exact ih k2 na2 ni2 ns2 w2 gh2 debits2 hcl2 hd2

/-- C9: provided the environment only ever submits session-representable
actions (the `session.rs` parser accepts only `Fold`, `Check`, `Call`, `Bet`
and `SitOut`, never blinds) and the mailbox starts blind-free, every money
debit `(money before, amount subtracted)` recorded while `play_street` runs
satisfies `amount ≤ money`: blinds are clamped to `min(blind, money)`, calls
are capped at the player's stack, and bets were validated so the bet does not
exceed money plus this street's contribution — so no `money -= amount`
subtraction underflows and money stays a non-negative integer. -/
theorem play_street_no_underflow (env : Env) (gfuel sfuel : Nat) (w : World)
    (gh : GameHand)
    (henv : ∀ t, ∀ e ∈ env.mailAt t, isBlind e.2 = false)
    (hw : ∀ e ∈ w.mailbox, isBlind e.2 = false) :
    ∀ d ∈ (play_street env gfuel sfuel w gh).debits, d.2 ≤ d.1 := by
  unfold play_street
  dsimp only
  split
  · intro d hdm
    exact absurd hdm (by simp)
  · split
    · intro d hdm
      exact absurd hdm (by simp)
    · exact streetLoop_no_underflow env gfuel _ henv sfuel 0 _ _ 0 w _ [] hw
        (fun d hdm => nomatch hdm)

/-- An environment whose rng always answers 99, so computer players call. -/
def c9Env : Env := { zeroEnv with rngAt := fun _ => 99 }

/-- The two computer-driven seats of the C9 witness. -/
def c9Bot1 : Player := { mkHuman 1 1000 with human_controlled := false }

/-- The second computer-driven seat of the C9 witness. -/
def c9Bot2 : Player := { mkHuman 2 1000 with human_controlled := false }

/-- A world seating the two bots with live configs. -/
def c9World : World :=
  mkWorld { Table.default with
    players := [some c9Bot1, some c9Bot2] ++ List.replicate 7 none
  , player_ids_to_configs := [(1, mkCfgA 1 21 "b1"), (2, mkCfgA 2 22 "b2")] }

/-- A flop facing a bet of 5, which both bots call. -/
def c9Gh : GameHand := { GameHand.default with street := .Flop, current_bet := 5 }

/-- Witness for C9 at a concrete street where both bots call a bet of 5: two
debits of 5 are recorded, each below the 1000-chip stack behind it. -/
theorem play_street_no_underflow_witness :
    (play_street c9Env 1 20 c9World c9Gh).debits = [(1000, 5), (1000, 5)] ∧
    ∀ d ∈ (play_street c9Env 1 20 c9World c9Gh).debits, d.2 ≤ d.1 :=
  ⟨by decide,
    play_street_no_underflow c9Env 1 20 c9World c9Gh (fun t e he => nomatch he)
      (fun e he => nomatch he)⟩

/-! ## C1 — chip conservation of the settlement -/

/-- The total chips held by the seated players. -/
def moneySum (players : List (Option Player)) : Nat :=
  ((players.filterMap id).map Player.money).sum

/-- `moneySum` seat by seat. -/
theorem moneySum_cons (x : Option Player) (xs : List (Option Player)) :
    moneySum (x :: xs) =
      (match x with | some p => p.money | none => 0) + moneySum xs := by
  cases x <;> simp [moneySum]

/-- A sum of pointwise sums splits. -/
theorem sum_map_add {α : Type} (f g : α → Nat) :
    ∀ (l : List α), (l.map (fun x => f x + g x)).sum = (l.map f).sum + (l.map g).sum := by
  intro l
  induction l with
  | nil => rfl
  | cons a t ih =>
    simp only [List.map_cons, List.sum_cons, ih]
    omega

/-- Crediting an occupied seat adds exactly the credited amount. -/
theorem seatPay_moneySum :
    ∀ (players : List (Option Player)) (s a : Nat) (p : Player),
      players.getD s none = some p →
      moneySum (seatPay players s a) = moneySum players + a := by
  intro players
  induction players with
  | nil =>
    intro s a p h
    simp [List.getD] at h
  | cons x xs ih =>
    intro s a p h
    cases s with
    | zero =>
      rw [List.getD_cons_zero] at h
      subst h
      unfold seatPay
      rw [List.getD_cons_zero]
      simp only [List.set_cons_zero]
      rw [moneySum_cons, moneySum_cons]
      simp only [Option.map]
      omega
    | succ s =>
      rw [List.getD_cons_succ] at h
      unfold seatPay
      rw [List.getD_cons_succ, List.set_cons_succ]
      rw [moneySum_cons, moneySum_cons]
      have := ih s a p h
      unfold seatPay at this
      omega

/-- Crediting a seat does not create or vacate seats. -/
theorem seatPay_getD_isSome :
    ∀ (players : List (Option Player)) (t a s : Nat),
      ((seatPay players t a).getD s none).isSome = ((players.getD s none)).isSome := by
  intro players
  induction players with
  | nil => intro t a s; rfl
  | cons x xs ih =>
    intro t a s
    cases t with
    | zero =>
      unfold seatPay
      rw [List.getD_cons_zero, List.set_cons_zero]
      cases s with
      | zero => rw [List.getD_cons_zero, List.getD_cons_zero]; cases x <;> rfl
      | succ s => rw [List.getD_cons_succ, List.getD_cons_succ]
    | succ t =>
      unfold seatPay
      rw [List.getD_cons_succ, List.set_cons_succ]
      cases s with
      | zero => rw [List.getD_cons_zero, List.getD_cons_zero]
      | succ s =>
        rw [List.getD_cons_succ, List.getD_cons_succ]
        have := ih t a s
        unfold seatPay at this
        exact this

/-- Crediting a seat does not change who is active. -/
theorem seatPay_seatActive :
    ∀ (players : List (Option Player)) (t a s : Nat),
      seatActive (seatPay players t a) s = seatActive players s := by
  intro players
  induction players with
  | nil => intro t a s; rfl
  | cons x xs ih =>
    intro t a s
    cases t with
    | zero =>
      unfold seatPay seatActive
      rw [List.getD_cons_zero, List.set_cons_zero]
      cases s with
      | zero => rw [List.getD_cons_zero, List.getD_cons_zero]; cases x <;> rfl
      | succ s => rw [List.getD_cons_succ, List.getD_cons_succ]
    | succ t =>
      unfold seatPay seatActive
      rw [List.getD_cons_succ, List.set_cons_succ]
      cases s with
      | zero => rw [List.getD_cons_zero, List.getD_cons_zero]
      | succ s =>
        have := ih t a s
        unfold seatPay seatActive at this
        rw [List.getD_cons_succ, List.getD_cons_succ]
        exact this

/-- An active seat is occupied. -/
theorem seatActive_isSome (players : List (Option Player)) (s : Nat)
    (h : seatActive players s = true) : ((players.getD s none)).isSome = true := by
  unfold seatActive at h
  cases hx : players.getD s none
  · rw [hx] at h; exact absurd h (by simp)
  · rfl

/-- Folding seat credits over occupied seats adds the credited amounts. -/
theorem foldl_seatPay_moneySum (g : Nat × Nat → Nat) :
    ∀ (l : List (Nat × Nat)) (players : List (Option Player)),
      (∀ e ∈ l, ((players.getD e.2 none)).isSome = true) →
      moneySum (l.foldl (fun ps e => seatPay ps e.2 (g e)) players) =
        moneySum players + (l.map g).sum := by
  intro l
  induction l with
  | nil => intro players _; simp
  | cons e t ih =>
    intro players hocc
    rw [List.foldl_cons]
    obtain ⟨p, hp⟩ := Option.isSome_iff_exists.mp (hocc e (List.mem_cons_self e t))
    have hstep := seatPay_moneySum players e.2 (g e) p hp
    have hocc2 : ∀ x ∈ t, (((seatPay players e.2 (g e)).getD x.2 none)).isSome = true := by
      intro x hx
      rw [seatPay_getD_isSome]
      exact hocc x (List.mem_cons_of_mem e hx)
    rw [ih (seatPay players e.2 (g e)) hocc2, hstep]
    simp only [List.map_cons, List.sum_cons]
    omega

/-- Folding seat credits never changes who is active. -/
theorem foldl_seatPay_seatActive (g : Nat × Nat → Nat) (s : Nat) :
    ∀ (l : List (Nat × Nat)) (players : List (Option Player)),
      seatActive (l.foldl (fun ps e => seatPay ps e.2 (g e)) players) s =
        seatActive players s := by
  intro l
  induction l with
  | nil => intro players; rfl
  | cons e t ih =>
    intro players
    rw [List.foldl_cons, ih, seatPay_seatActive]

/-- An enumerated element's payload is a member. -/
theorem enumFrom_snd_mem {α : Type} :
    ∀ (l : List α) (n : Nat) (e : Nat × α), e ∈ List.enumFrom n l → e.2 ∈ l := by
  intro l
  induction l with
  | nil => intro n e h; exact absurd h (by simp)
  | cons a t ih =>
    intro n e h
    rw [List.enumFrom_cons] at h
    rcases List.mem_cons.mp h with rfl | h
    · exact List.mem_cons_self a t
    · exact List.mem_cons_of_mem a (ih (n + 1) e h)

/-- The equal-split-with-remainder shares of one pot sum to the pot. -/
theorem shareSum (a n : Nat) (hn : 0 < n) :
    ((List.range n).map (fun k => a / n + (if k < a % n then 1 else 0))).sum = a := by
  have key : ∀ m, ((List.range m).map (fun k => a / n + (if k < a % n then 1 else 0))).sum
      = m * (a / n) + min (a % n) m := by
    intro m
    induction m with
    | zero => simp
    | succ m ih =>
      rw [List.range_succ, List.map_append, List.sum_append, ih]
      simp only [List.map_cons, List.map_nil, List.sum_cons, List.sum_nil]
      have hmul : (m + 1) * (a / n) = m * (a / n) + (a / n) := by ring
      by_cases h : m < a % n
      · rw [if_pos h]
        have h2 : min (a % n) (m + 1) = min (a % n) m + 1 := by omega
        omega
      · rw [if_neg h]
        have h2 : min (a % n) (m + 1) = min (a % n) m := by omega
        omega
  rw [key n]
  have h1 := Nat.div_add_mod a n
  have h2 : a % n < n := Nat.mod_lt _ hn
  have h3 : min (a % n) n = a % n := by omega
  omega

/-- Paying one pot to a non-empty list of occupied winners adds the pot to
the seats' money. -/
theorem payPot_fst_moneySum (configs : List (Nat × PlayerConfig)) (rankOf : Nat → Nat)
    (players : List (Option Player)) (ordered : List Nat) (amount : Nat)
    (hocc : ∀ s ∈ ordered, ((players.getD s none)).isSome = true)
    (hn : 0 < ordered.length) :
    moneySum (payPot configs rankOf players ordered amount).1 =
      moneySum players + amount := by
  unfold payPot
  dsimp only
  rw [foldl_seatPay_moneySum (fun e => amount / ordered.length +
      (if e.1 < amount % ordered.length then 1 else 0)) ordered.enum players
    (fun e he => hocc e.2 (enumFrom_snd_mem ordered 0 e he))]
  have hfst : ordered.enum.map Prod.fst = List.range ordered.length := List.enum_map_fst ordered
  have : (ordered.enum.map (fun e => amount / ordered.length +
      (if e.1 < amount % ordered.length then 1 else 0))).sum =
      ((List.range ordered.length).map (fun k => amount / ordered.length +
        (if k < amount % ordered.length then 1 else 0))).sum := by
    rw [← hfst, List.map_map]
    rfl
  rw [this, shareSum amount ordered.length hn]

/-- The settlements of one pot sum to the pot. -/
theorem payPot_snd_sum (configs : List (Nat × PlayerConfig)) (rankOf : Nat → Nat)
    (players : List (Option Player)) (ordered : List Nat) (amount : Nat)
    (hn : 0 < ordered.length) :
    ((payPot configs rankOf players ordered amount).2.map Settlement.amount).sum =
      amount := by
  unfold payPot
  dsimp only
  rw [List.map_map]
  have hfst : ordered.enum.map Prod.fst = List.range ordered.length := List.enum_map_fst ordered
  have : (ordered.enum.map (Settlement.amount ∘ fun e =>
      ({ seat := e.2, player_name := seatName players configs e.2
       , amount := amount / ordered.length +
           (if e.1 < amount % ordered.length then 1 else 0)
       , hand_description := rankOf e.2 } : Settlement))).sum =
      ((List.range ordered.length).map (fun k => amount / ordered.length +
        (if k < amount % ordered.length then 1 else 0))).sum := by
    rw [← hfst, List.map_map]
    rfl
  rw [this, shareSum amount ordered.length hn]

/-- Paying a pot never changes who is active. -/
theorem payPot_seatActive (configs : List (Nat × PlayerConfig)) (rankOf : Nat → Nat)
    (players : List (Option Player)) (ordered : List Nat) (amount : Nat) (s : Nat) :
    seatActive (payPot configs rankOf players ordered amount).1 s =
      seatActive players s := by
  unfold payPot
  dsimp only
  rw [foldl_seatPay_seatActive]

/-- A non-empty seat list attains its best rank. -/
theorem bestRank_exists (rankOf : Nat → Nat) :
    ∀ (seats : List Nat), seats ≠ [] →
      ∃ s, s ∈ seats ∧ rankOf s = bestRank rankOf seats := by
  intro seats
  induction seats with
  | nil => intro h; exact absurd rfl h
  | cons x l ih =>
    intro _
    cases l with
    | nil =>
      refine ⟨x, List.mem_cons_self x _, ?_⟩
      show rankOf x = bestRank rankOf [x]
      unfold bestRank
      simp
    | cons y t =>
      have hfold : bestRank rankOf (x :: y :: t) =
          max (rankOf x) (bestRank rankOf (y :: t)) := rfl
      obtain ⟨s, hs, hr⟩ := ih (by simp)
      by_cases hc : bestRank rankOf (y :: t) ≤ rankOf x
      · refine ⟨x, List.mem_cons_self x _, ?_⟩
        rw [hfold]
        omega
      · refine ⟨s, List.mem_cons_of_mem x hs, ?_⟩
        rw [hfold]
        omega

/-- Every seat below 9 occurs in the hand order. -/
theorem mem_handOrder (idx s : Nat) (h : s < 9) : s ∈ handOrder idx := by
  unfold handOrder
  rw [List.mem_map]
  refine ⟨(9 - idx % 9 + s) % 9, List.mem_range.mpr (Nat.mod_lt _ (by omega)), by omega⟩

/-- A lower bound of a list bounds its last element. -/
theorem le_getLastD (d : Nat) :
    ∀ (l : List Nat) (e : Nat), d ≤ e → (∀ x ∈ l, d ≤ x) → d ≤ l.getLastD e := by
  intro l
  induction l with
  | nil => intro e he _; exact he
  | cons a t ih =>
    intro e _ hall
    rw [List.getLastD_cons]
    exact ih a (hall a (List.mem_cons_self a t))
      (fun x hx => hall x (List.mem_cons_of_mem a hx))

/-- In a sorted list every member is at most the last element. -/
theorem mem_le_getLastD :
    ∀ (l : List Nat), l.Pairwise (· ≤ ·) → ∀ (d x : Nat), x ∈ l → x ≤ l.getLastD d := by
  intro l
  induction l with
  | nil => intro _ d x hx; exact absurd hx (by simp)
  | cons a t ih =>
    intro hp d x hx
    rw [List.getLastD_cons]
    obtain ⟨hhead, htail⟩ := List.pairwise_cons.mp hp
    rcases List.mem_cons.mp hx with rfl | hx
    · exact le_getLastD x t x (Nat.le_refl x) hhead
    · exact ih htail a x hx

/-- Empty pot range collects nothing. -/
theorem potAmount_refl (totals : Nat → Nat) (a : Nat) : potAmount totals a a = 0 := by
  unfold potAmount
  have : ((List.range 9).map (fun s => min (totals s) a - min (totals s) a)) =
      (List.range 9).map (fun _ => 0) := by
    apply List.map_congr_left
    intro s _
    omega
  rw [this]
  simp

/-- Adjacent pot ranges telescope. -/
theorem potAmount_trans (totals : Nat → Nat) (a b c : Nat) (hab : a ≤ b) (hbc : b ≤ c) :
    potAmount totals a b + potAmount totals b c = potAmount totals a c := by
  unfold potAmount
  rw [← sum_map_add]
  apply congrArg List.sum
  apply List.map_congr_left
  intro s _
  omega

/-- When the top level dominates every seat's total, the pots collect all
contributions. -/
theorem potAmount_full (totals : Nat → Nat) (L : Nat)
    (h : ∀ s, s < 9 → totals s ≤ L) :
    potAmount totals 0 L = ((List.range 9).map totals).sum := by
  unfold potAmount
  apply congrArg List.sum
  apply List.map_congr_left
  intro s hs
  have := h s (List.mem_range.mp hs)
  omega

/-- Conservation through the pot-by-pot loop: with sorted eligible levels,
each backed by an active contributor, the settlements sum to the telescoped
pot range, the winners' seats gain exactly that much, and the activity
profile is unchanged. -/
theorem divvyGo_conservation (configs : List (Nat × PlayerConfig)) (rankOf : Nat → Nat)
    (starting_idx : Nat) (totals : Nat → Nat) (actOf : Nat → Bool) :
    ∀ (levels : List Nat) (lo : Nat) (players : List (Option Player)),
      levels.Pairwise (· ≤ ·) →
      (∀ l ∈ levels, lo ≤ l) →
      (∀ level ∈ levels, ∃ s, s < 9 ∧ actOf s = true ∧ level ≤ totals s) →
      (∀ s, seatActive players s = actOf s) →
      ((((divvyGo configs rankOf starting_idx totals levels lo players).2.map
          Settlement.amount).sum = potAmount totals lo (levels.getLastD lo)) ∧
       (moneySum (divvyGo configs rankOf starting_idx totals levels lo players).1 =
         moneySum players + potAmount totals lo (levels.getLastD lo)) ∧
       (∀ s, seatActive
           (divvyGo configs rankOf starting_idx totals levels lo players).1 s =
         actOf s)) := by
  intro levels
  induction levels with
  | nil =>
    intro lo players _ _ _ hact
    unfold divvyGo
    refine ⟨by simp [potAmount_refl], by simp [potAmount_refl], hact⟩
  | cons level rest ih =>
    intro lo players hp hlo hwin hact
    unfold divvyGo
    dsimp only
    obtain ⟨s0, hs0lt, hs0act, hs0le⟩ := hwin level (List.mem_cons_self _ _)
    have hs0mem : s0 ∈ eligibleSeats players totals level := by
      unfold eligibleSeats
      rw [List.mem_filter]
      refine ⟨List.mem_range.mpr hs0lt, ?_⟩
      rw [hact s0, hs0act]
      simp [hs0le]
    have heligne : eligibleSeats players totals level ≠ [] := by
      intro h
      rw [h] at hs0mem
      exact absurd hs0mem (List.not_mem_nil s0)
    obtain ⟨sw, hswmem, hswrank⟩ :=
      bestRank_exists rankOf (eligibleSeats players totals level) heligne
    have hswwin : sw ∈ (eligibleSeats players totals level).filter
        (fun s => rankOf s == bestRank rankOf (eligibleSeats players totals level)) := by
      rw [List.mem_filter]
      exact ⟨hswmem, by rw [hswrank]; simp⟩
    have hsw9 : sw < 9 := by
      have := (List.mem_filter.mp hswmem).1
      exact List.mem_range.mp this
    have hswo : sw ∈ (handOrder starting_idx).filter
        (fun s => ((eligibleSeats players totals level).filter
          (fun s => rankOf s == bestRank rankOf
            (eligibleSeats players totals level))).contains s) := by
      rw [List.mem_filter]
      refine ⟨mem_handOrder starting_idx sw hsw9, ?_⟩
      exact List.elem_eq_true_of_mem hswwin
    have hlen : 0 < ((handOrder starting_idx).filter
        (fun s => ((eligibleSeats players totals level).filter
          (fun s => rankOf s == bestRank rankOf
            (eligibleSeats players totals level))).contains s)).length :=
      List.length_pos.mpr (List.ne_nil_of_mem hswo)
    have hocc : ∀ s ∈ (handOrder starting_idx).filter
        (fun s => ((eligibleSeats players totals level).filter
          (fun s => rankOf s == bestRank rankOf
            (eligibleSeats players totals level))).contains s),
        ((players.getD s none)).isSome = true := by
      intro s hsmem
      have hcont := (List.mem_filter.mp hsmem).2
      replace hcont := List.mem_of_elem_eq_true hcont
      have helig := (List.mem_filter.mp hcont).1
      have hactive := (List.mem_filter.mp helig).2
      have hsa : seatActive players s = true := by
        simp only [Bool.and_eq_true, decide_eq_true_eq] at hactive
        exact hactive.1
      exact seatActive_isSome players s hsa
    have hm2 := payPot_fst_moneySum configs rankOf players _ (potAmount totals lo level)
      hocc hlen
    have hss := payPot_snd_sum configs rankOf players _ (potAmount totals lo level) hlen
    have hact2 : ∀ s, seatActive (payPot configs rankOf players
        ((handOrder starting_idx).filter
          (fun s => ((eligibleSeats players totals level).filter
            (fun s => rankOf s == bestRank rankOf
              (eligibleSeats players totals level))).contains s))
        (potAmount totals lo level)).1 s = actOf s := by
      intro s
      rw [payPot_seatActive]
      exact hact s
    obtain ⟨hhead, htail⟩ := List.pairwise_cons.mp hp
    have H3 := ih level (payPot configs rankOf players
        ((handOrder starting_idx).filter
          (fun s => ((eligibleSeats players totals level).filter
            (fun s => rankOf s == bestRank rankOf
              (eligibleSeats players totals level))).contains s))
        (potAmount totals lo level)).1
      htail hhead (fun l hl => hwin l (List.mem_cons_of_mem level hl)) hact2
    have htrans : potAmount totals lo level +
        potAmount totals level (rest.getLastD level) =
        potAmount totals lo (rest.getLastD level) :=
      potAmount_trans totals lo level (rest.getLastD level)
        (hlo level (List.mem_cons_self _ _))
        (le_getLastD level rest level (Nat.le_refl level) hhead)
    rw [List.getLastD_cons]
    refine ⟨?_, ?_, ?_⟩
    · simp only [List.map_append, List.sum_append]
      rw [hss, H3.1]
      exact htrans
    · rw [H3.2.1, hm2]
      omega
    · exact H3.2.2

/-- Clearing hole cards changes no money. -/
theorem moneySum_map_clear :
    ∀ (players : List (Option Player)),
      moneySum (players.map (fun sp =>
        Option.map (fun p => { p with hole_cards := [] }) sp)) = moneySum players := by
  intro players
  induction players with
  | nil => rfl
  | cons x xs ih =>
    rw [List.map_cons, moneySum_cons, moneySum_cons, ih]
    cases x <;> rfl

/-- Conservation of `divvy_pots`: when some still-active seat's hand total
dominates every seat's total, the settlements sum to the whole pot and the
winners' stacks grow by exactly the pot. -/
theorem divvy_pots_conservation (gh : GameHand) (players : List (Option Player))
    (configs : List (Nat × PlayerConfig)) (starting_idx : Nat) (rankOf : Nat → Nat)
    (smax : Nat) (hlt : smax < 9) (hactmax : seatActive players smax = true)
    (hmax : ∀ s, s < 9 → gh.totalAt s ≤ gh.totalAt smax) :
    (((gh.divvy_pots players configs starting_idx rankOf).2.map
        Settlement.amount).sum = ((List.range 9).map gh.totalAt).sum) ∧
    (moneySum (gh.divvy_pots players configs starting_idx rankOf).1 =
      moneySum players + ((List.range 9).map gh.totalAt).sum) := by
  unfold GameHand.divvy_pots
  dsimp only
  set lv := (((List.range 9).filter
      (fun s => seatActive players s && gh.totalAt s != 0)).map
        gh.totalAt).dedup.insertionSort (· ≤ ·) with hlv
  have hsorted : lv.Pairwise (· ≤ ·) := List.sorted_insertionSort (· ≤ ·) _
  have hwin : ∀ level ∈ lv, ∃ s, s < 9 ∧ seatActive players s = true ∧
      level ≤ gh.totalAt s := by
    intro level hlev
    rw [hlv] at hlev
    have h1 := (List.mem_insertionSort (· ≤ ·)).mp hlev
    have h2 := List.mem_dedup.mp h1
    obtain ⟨s, hsf, hseq⟩ := List.mem_map.mp h2
    have h3 := List.mem_filter.mp hsf
    have h4 : seatActive players s = true := by
      have := h3.2
      simp only [Bool.and_eq_true] at this
      exact this.1
    exact ⟨s, List.mem_range.mp h3.1, h4, by omega⟩
  have H := divvyGo_conservation configs rankOf starting_idx gh.totalAt
    (fun s => seatActive players s) lv 0 players hsorted
    (fun l _ => Nat.zero_le l) hwin (fun s => rfl)
  have hfull : potAmount gh.totalAt 0 (lv.getLastD 0) =
      ((List.range 9).map gh.totalAt).sum := by
    apply potAmount_full
    intro s hs
    by_cases h0 : gh.totalAt s = 0
    · rw [h0]
      exact Nat.zero_le _
    · have hle := hmax s hs
      have hmne : gh.totalAt smax ≠ 0 := by
        intro hz
        rw [hz] at hle
        omega
      have hmem1 : smax ∈ (List.range 9).filter
          (fun s => seatActive players s && gh.totalAt s != 0) := by
        rw [List.mem_filter]
        refine ⟨List.mem_range.mpr hlt, ?_⟩
        rw [hactmax]
        simp [hmne]
      have hmem2 := List.mem_map_of_mem gh.totalAt hmem1
      have hmem3 := List.mem_dedup.mpr hmem2
      have hmem : gh.totalAt smax ∈ lv := by
        rw [hlv]
        exact (List.mem_insertionSort (· ≤ ·)).mpr hmem3
      have hlast := mem_le_getLastD lv hsorted 0 _ hmem
      omega
  refine ⟨?_, ?_⟩
  · rw [← hfull]
    exact H.1
  · rw [← hfull]
    exact H.2.1

/-- C1: for a hand that reaches settlement with some still-active seat
holding a maximal hand total, the settlement amounts produced by
`divvy_pots` sum to the chips contributed over the hand, and `finish_hand`
pays exactly that back into the seats: the seated players' total money after
`finish_hand` exceeds the total at settlement entry by exactly the hand's
contributions — the chips taken from the players during the hand. -/
theorem finish_hand_conservation (env : Env) (w : World) (gh : GameHand)
    (hcfg : w.table.player_ids_to_configs.isEmpty = false)
    (smax : Nat) (hlt : smax < 9)
    (hactmax : seatActive w.table.players smax = true)
    (hmax : ∀ s, s < 9 → gh.totalAt s ≤ gh.totalAt smax) :
    (((gh.divvy_pots w.table.players w.table.player_ids_to_configs
        w.table.get_starting_idx (env.rankAt w.tick)).2.map Settlement.amount).sum =
      ((List.range 9).map gh.totalAt).sum) ∧
    (moneySum (finish_hand env w gh).table.players =
      moneySum w.table.players + ((List.range 9).map gh.totalAt).sum) := by
  have H := divvy_pots_conservation gh w.table.players w.table.player_ids_to_configs
    w.table.get_starting_idx (env.rankAt w.tick) smax hlt hactmax hmax
  refine ⟨H.1, ?_⟩
  unfold finish_hand
  simp only [hcfg, Bool.false_eq_true, if_false]
  rcases hdp : gh.divvy_pots w.table.players w.table.player_ids_to_configs
      w.table.get_starting_idx (env.rankAt w.tick) with ⟨players2, settlements⟩
  rw [hdp] at H
  show moneySum (List.map _ players2) = _
  rw [moneySum_map_clear]
  exact H.2

/-- A world with two funded seated players for the C1 witness. -/
def c1World : World :=
  mkWorld { Table.default with
    players := [some (mkHuman 1 995), some (mkHuman 2 995)] ++ List.replicate 7 none
  , player_ids_to_configs := [(1, mkCfgA 1 31 "pa"), (2, mkCfgA 2 32 "pb")] }

/-- A settled hand where both players posted 5 chips preflop. -/
def c1Gh : GameHand :=
  { GameHand.default with
    street_contributions := [(Street.Preflop, [5, 5, 0, 0, 0, 0, 0, 0, 0])] }

/-- Witness for C1: the 10-chip pot is split back, restoring the 2000-chip
table total. -/
theorem finish_hand_conservation_witness :
    c1World.table.player_ids_to_configs.isEmpty = false ∧
    seatActive c1World.table.players 0 = true ∧
    (∀ s, s < 9 → c1Gh.totalAt s ≤ c1Gh.totalAt 0) ∧
    moneySum (finish_hand zeroEnv c1World c1Gh).table.players = 2000 :=
  ⟨by decide, by decide, by decide, by
    rw [(finish_hand_conservation zeroEnv c1World c1Gh (by decide) 0 (by decide)
      (by decide) (by decide)).2]
    decide⟩

end Poker
